import Mathlib

/-!
Verification of the certificate-lifecycle orchestrator of ngx-manager.

The development shallowly embeds the SSL-certificate data model and the
operations that touch it: the certbot service (`src/api/services` /
`src/unnamed/part_001`), the SSL routes (`src/api/routes/ssl.ts`), the
renewal scheduler (`src/api/services/renewalScheduler.ts`) and the nginx
generator's reload (`NginxGenerator.reloadNginx`).  The database is a pure
state (`Db`); each SQL statement of the source becomes a pure function on
it.  External commands (certbot, openssl, nginx) are modelled by an oracle
record `CaEnv` fixing, per invocation, whether each command succeeds and
what the certificate inspection reports.  Timestamps are integers in
milliseconds; `daysUntilExpiry` mirrors the source's
`Math.ceil((expiresAt - now) / (1000*60*60*24))`.
-/

namespace NgxManager

/-- Lifecycle status of an `ssl_certificates` row
(values written by the code paths under verification). -/
inductive CertStatus where
  | pending
  | valid
  | expired
  | failed
  | revoked
  deriving DecidableEq, Repr

/-- One `ssl_certificates` row.  `expiresAt` is `none` for SQL NULL.
Creation order is tracked by the row's position in `Db.certs`
(newest first), which models `ORDER BY created_at DESC`. -/
structure CertRow where
  id : Nat
  proxyId : Nat
  domain : String
  status : CertStatus
  expiresAt : Option Int
  deriving DecidableEq, Repr

/-- One `ssl_certificate_domains` (SAN) row; the table has a
UNIQUE KEY on (certificate_id, domain). -/
structure SanRow where
  certificateId : Nat
  domain : String
  deriving DecidableEq, Repr

/-- Outcome recorded in a `renewal_logs` row. -/
inductive RenewalLogStatus where
  | success
  | failed
  | error
  deriving DecidableEq, Repr

/-- One `renewal_logs` row. -/
structure LogRow where
  domain : String
  status : RenewalLogStatus
  deriving DecidableEq, Repr

/-- One `proxies` row (the fields the certificate code reads/writes). -/
structure ProxyRow where
  id : Nat
  domain : String
  userId : Nat
  sslEnabled : Bool
  deriving DecidableEq, Repr

/-- The database state: the three certificate tables plus the proxies
table.  `certs` is newest-first; `logs` is oldest-first (append at the
end).  `nextCertId` is the AUTO_INCREMENT counter of `ssl_certificates`. -/
structure Db where
  proxies : List ProxyRow
  certs : List CertRow
  sans : List SanRow
  logs : List LogRow
  nextCertId : Nat
  deriving DecidableEq, Repr

/-- Milliseconds per day, the divisor used by every
`daysUntilExpiry` computation in the source. -/
def msPerDay : Int := 1000 * 60 * 60 * 24

/-- Mirrors `Math.ceil((expiresAt - now) / 86400000)`:
ceiling division on integers. -/
def daysUntilExpiry (now expiresAt : Int) : Int :=
  -((now - expiresAt).ediv msPerDay)

/-- The `daysUntilExpiry > 30` test as run by the routes.  A NULL
`expires_at` makes `new Date(null)` the epoch, whose day count is far
negative, so the test is false; `none ↦ false` models that. -/
def daysGT30 (now : Int) (e : Option Int) : Bool :=
  match e with
  | some t => decide (30 < daysUntilExpiry now t)
  | none => false

/-- Result record of the certbot service
(`CertificateInfo` in the source). -/
structure CertificateInfo where
  domain : String
  domains : Option (List String)
  status : CertStatus
  issued_at : Option Int
  expires_at : Option Int
  deriving DecidableEq, Repr

/-- Errors surfaced to the route layer (`createNotFoundError`,
`createValidationError`, `createDatabaseError`). -/
inductive ApiError where
  | notFound
  | validation
  | database
  deriving DecidableEq, Repr

/-- Body of a successful `/request` or `/renew` response
(the fields the claims are about). -/
structure SslResponse where
  certificateId : Nat
  status : String
  domain : String
  deriving DecidableEq, Repr

/-- Oracle for one operation's interactions with the outside world:
which external commands succeed and what certificate inspection finds. -/
structure CaEnv where
  certbotInstalled : Bool
  dirsOk : Bool
  acmeSetupOk : Bool
  issuanceOk : Bool
  certFileExists : Bool
  opensslOk : Bool
  notBefore : Option Int
  notAfter : Option Int
  inspectNow : Int
  proxySyncOk : Bool
  renewExecOk : Bool
  reloadOk : Bool
  revokeExecOk : Bool

/-! ### Database primitives (one per SQL statement shape) -/

/-- Mirrors `SELECT ... FROM ssl_certificates WHERE id = ?` (ids are unique). -/
def findId (l : List CertRow) (cid : Nat) : Option CertRow :=
  l.find? (fun c => decide (c.id = cid))

def Db.findCert (db : Db) (cid : Nat) : Option CertRow :=
  findId db.certs cid

/-- Row update applied by
`UPDATE ssl_certificates SET status=?, expires_at=? WHERE id=?`. -/
def updRow (cid : Nat) (st : CertStatus) (e : Option Int) (c : CertRow) : CertRow :=
  if c.id = cid then { c with status := st, expiresAt := e } else c

/-- Row update applied by `UPDATE ssl_certificates SET status=? WHERE id=?`
(the expiry column is left alone). -/
def updStatusRow (cid : Nat) (st : CertStatus) (c : CertRow) : CertRow :=
  if c.id = cid then { c with status := st } else c

/-- Mirrors `UPDATE ssl_certificates SET status=?, expires_at=? WHERE id=?`. -/
def Db.updateCert (db : Db) (cid : Nat) (st : CertStatus) (e : Option Int) : Db :=
  { db with certs := db.certs.map (updRow cid st e) }

/-- Mirrors `UPDATE ssl_certificates SET status=? WHERE id=?`. -/
def Db.setCertStatus (db : Db) (cid : Nat) (st : CertStatus) : Db :=
  { db with certs := db.certs.map (updStatusRow cid st) }

/-- Mirrors `INSERT INTO ssl_certificates (proxy_id, domain, status, expires_at)`;
returns the new state and the `insertId`. -/
def Db.insertCert (db : Db) (pid : Nat) (dom : String) (st : CertStatus)
    (e : Option Int) : Db × Nat :=
  ({ db with
      certs := ⟨db.nextCertId, pid, dom, st, e⟩ :: db.certs,
      nextCertId := db.nextCertId + 1 },
   db.nextCertId)

/-- Mirrors `SELECT ... FROM ssl_certificates WHERE proxy_id = ?
ORDER BY created_at DESC LIMIT 1`. -/
def Db.latestCert (db : Db) (pid : Nat) : Option CertRow :=
  db.certs.find? (fun c => decide (c.proxyId = pid))

/-- Mirrors `SELECT ... WHERE proxy_id = ? AND status IN ('pending','valid')
ORDER BY created_at DESC LIMIT 1`. -/
def Db.latestActiveCert (db : Db) (pid : Nat) : Option CertRow :=
  db.certs.find?
    (fun c => decide (c.proxyId = pid ∧ (c.status = .pending ∨ c.status = .valid)))

/-- Mirrors `SELECT id, domain FROM proxies WHERE id = ? AND user_id = ?`. -/
def Db.findProxy (db : Db) (uid pid : Nat) : Option ProxyRow :=
  db.proxies.find? (fun p => decide (p.id = pid ∧ p.userId = uid))

/-- The join `ssl_certificates s JOIN proxies p ON s.proxy_id = p.id
WHERE s.id = ? AND p.user_id = ?`. -/
def Db.findCertOfUser (db : Db) (uid cid : Nat) : Option CertRow :=
  db.certs.find? (fun c =>
    decide (c.id = cid) &&
      db.proxies.any (fun p => decide (p.id = c.proxyId ∧ p.userId = uid)))

/-- Mirrors `DELETE scd FROM ssl_certificate_domains scd JOIN ssl_certificates sc
ON scd.certificate_id = sc.id WHERE sc.proxy_id = ?`: removes the SAN rows
of every certificate belonging to the proxy. -/
def Db.deleteSansForProxy (db : Db) (pid : Nat) : Db :=
  { db with
    sans := db.sans.filter (fun s =>
      !(db.certs.any (fun c => decide (c.id = s.certificateId ∧ c.proxyId = pid)))) }

/-- Mirrors `INSERT IGNORE INTO ssl_certificate_domains (certificate_id, domain)`:
a no-op when the (certificate_id, domain) unique key already exists. -/
def Db.insertSanIgnore (db : Db) (cid : Nat) (d : String) : Db :=
  if db.sans.any (fun s => decide (s.certificateId = cid ∧ s.domain = d)) then db
  else { db with sans := db.sans ++ [⟨cid, d⟩] }

/-- Mirrors `INSERT INTO renewal_logs (domain, status, created_at)`. -/
def Db.appendLog (db : Db) (dom : String) (st : RenewalLogStatus) : Db :=
  { db with logs := db.logs ++ [⟨dom, st⟩] }

/-- Mirrors `UPDATE proxies SET ssl_enabled = 1 WHERE domain = ?`. -/
def Db.enableProxySsl (db : Db) (dom : String) : Db :=
  { db with
    proxies := db.proxies.map (fun p =>
      if p.domain = dom then { p with sslEnabled := true } else p) }

/-- Mirrors `DELETE FROM ssl_certificates WHERE id = ?` together with the
`ON DELETE CASCADE` on `ssl_certificate_domains`. -/
def Db.deleteCertCascade (db : Db) (cid : Nat) : Db :=
  { db with
    certs := db.certs.filter (fun c => !decide (c.id = cid)),
    sans := db.sans.filter (fun s => !decide (s.certificateId = cid)) }

/-! ### Certbot service (`CertbotService` in `src/unnamed/part_001`) -/

namespace CertbotService

/-- The JS idiom `a.filter((v, i, a) => a.indexOf(v) === i)`:
keep an element only at the index of its first occurrence. -/
def jsFirstOccurrences (a : List String) : List String :=
  (a.enum.filter (fun p => decide (a.indexOf p.2 = p.1))).map (fun p => p.2)

/-- The domain list built by `obtainCertificate`:
`[primary, ...extraDomains.filter(d => d && d !== primary)]
  .filter((v, i, a) => a.indexOf(v) === i)`.
The truthiness test `d` excludes the empty string. -/
def dedupDomains (primary : String) (extraDomains : List String) : List String :=
  jsFirstOccurrences
    (primary :: extraDomains.filter (fun d => decide (d ≠ "") && decide (d ≠ primary)))

/-- Mirrors `getCertificateInfo`: inspect the certificate material on disk.
No file ↦ `pending`; openssl failure (the outer catch) ↦ `failed`;
otherwise `expired` when the parsed notAfter is past `Date.now()`,
else `valid` (an absent notAfter also reads as `valid`). -/
def getCertificateInfo (env : CaEnv) (primary : String)
    (domains : Option (List String)) : CertificateInfo :=
  if env.certFileExists = false then
    { domain := primary, domains := some (domains.getD [primary]),
      status := .pending, issued_at := none, expires_at := none }
  else if env.opensslOk = false then
    { domain := primary, domains := some (domains.getD [primary]),
      status := .failed, issued_at := none, expires_at := none }
  else
    let isExpired : Bool :=
      match env.notAfter with
      | some t => decide (t < env.inspectNow)
      | none => false
    { domain := primary, domains := some (domains.getD [primary]),
      status := if isExpired then .expired else .valid,
      issued_at := env.notBefore, expires_at := env.notAfter }

/-- The info persisted by `obtainCertificate`'s catch block:
`{ domain: primary, domains, status: "failed" }`. -/
def failedInfo (primary : String) (domains : Option (List String)) : CertificateInfo :=
  { domain := primary, domains := domains, status := .failed,
    issued_at := none, expires_at := none }

/-- SAN tail of `persist`: guarded by `info.domains && info.domains.length`,
delete the SAN rows of every certificate of the proxy, then
`INSERT IGNORE` the new set for the written certificate. -/
def persistSans (db : Db) (pid certId : Nat) (domains : Option (List String)) : Db :=
  match domains with
  | some ds =>
    if ds.length ≠ 0 then
      ds.foldl (fun a d => a.insertSanIgnore certId d) (db.deleteSansForProxy pid)
    else db
  | none => db

/-- Mirrors `CertbotService.persist`: look the proxy up by domain; update the
proxy's most recent certificate row (or insert one if the proxy has
none) with the info's status and expiry; then run the SAN replacement
(`persistSans`) for the written row. -/
def persist (db : Db) (primary : String) (info : CertificateInfo) : Db :=
  match db.proxies.find? (fun p => decide (p.domain = primary)) with
  | none => db
  | some proxy =>
    match db.certs.find? (fun c => decide (c.proxyId = proxy.id)) with
    | some existing =>
      persistSans (db.updateCert existing.id info.status info.expires_at)
        proxy.id existing.id info.domains
    | none =>
      let ins := db.insertCert proxy.id primary info.status info.expires_at
      persistSans ins.1 proxy.id ins.2 info.domains

/-- Database effect of `enableProxySSL` (the nginx re-render and reload it
performs are external; their failure is the `proxySyncOk` oracle). -/
def enableProxySSL (db : Db) (primary : String) : Db :=
  db.enableProxySsl primary

/-- Everything `obtainCertificate` produced: the final database, whether
the temporary ACME challenge routing was stood up, how many times it was
torn down, the domain lists passed to `certbot certonly`, and the return
value or thrown error. -/
structure ObtainResult where
  db : Db
  setupDone : Bool
  teardownCount : Nat
  issuanceCalls : List (List String)
  outcome : Except Unit CertificateInfo

/-- Mirrors `CertbotService.obtainCertificate`.  The straight-line source is:
dedup domains; throw if certbot missing; `initDirs`;
`generateAcmeConfig` (stands up the challenge routing); then inside
`try`: run `certbot certonly` once for all domains, inspect, throw
unless valid, persist, `enableProxySSL`; `catch`: persist a failed
record and rethrow; `finally`: `removeAcmeConfig`. -/
def obtainCertificate (env : CaEnv) (db : Db) (primary : String)
    (extraDomains : List String) : ObtainResult :=
  let domains := dedupDomains primary extraDomains
  if env.certbotInstalled = false then
    ⟨db, false, 0, [], .error ()⟩
  else if env.dirsOk = false then
    ⟨db, false, 0, [], .error ()⟩
  else if env.acmeSetupOk = false then
    ⟨db, false, 0, [], .error ()⟩
  else if env.issuanceOk = false then
    ⟨persist db primary (failedInfo primary (some domains)), true, 1, [domains], .error ()⟩
  else
    let info := getCertificateInfo env primary (some domains)
    if info.status = .valid then
      let db1 := persist db primary info
      let db2 := enableProxySSL db1 primary
      if env.proxySyncOk = false then
        ⟨persist db2 primary (failedInfo primary (some domains)), true, 1, [domains], .error ()⟩
      else
        ⟨db2, true, 1, [domains], .ok info⟩
    else
      ⟨persist db primary (failedInfo primary (some domains)), true, 1, [domains], .error ()⟩

/-- Mirrors `CertbotService.renew`: run `certbot renew` (throws on failure,
nothing persisted), inspect, persist the outcome, and reload nginx when
valid (a reload failure throws after the persist). -/
def renew (env : CaEnv) (db : Db) (primary : String) :
    Db × Except Unit CertificateInfo :=
  if env.renewExecOk = false then (db, .error ())
  else
    let info := getCertificateInfo env primary none
    let db1 := persist db primary info
    if info.status = .valid ∧ env.reloadOk = false then (db1, .error ())
    else (db1, .ok info)

/-- Mirrors `CertbotService.revoke`: a no-op when no certificate material exists
on disk; otherwise run `certbot revoke` (throws on failure) and persist
a failed record (without a domain list). -/
def revoke (env : CaEnv) (db : Db) (primary : String) : Db × Except Unit Unit :=
  if env.certFileExists = false then (db, .ok ())
  else if env.revokeExecOk = false then (db, .error ())
  else (persist db primary (failedInfo primary none), .ok ())

end CertbotService

/-! ### SSL routes (`src/api/routes/ssl.ts`) -/

namespace SslRoutes

/-- Main body of `POST /api/ssl/request/:proxyId` once the ownership and
existing-certificate checks have passed: insert a pending row with a
90-day placeholder expiry, run `certbotService.obtainCertificate`,
update the row to the final status (`failed` in the catch), and respond
"pending". -/
def requestCore (env : CaEnv) (now : Int) (db : Db) (pid : Nat)
    (extraDomains : List String) (proxy : ProxyRow) :
    Db × Except ApiError SslResponse :=
  let placeholder := now + 90 * msPerDay
  let ins := db.insertCert pid proxy.domain .pending (some placeholder)
  let db1 := ins.1
  let cid := ins.2
  let r := CertbotService.obtainCertificate env db1 proxy.domain extraDomains
  let db2 :=
    match r.outcome with
    | .ok info =>
      let finalStatus := if info.status = .valid then CertStatus.valid else .failed
      r.db.updateCert cid finalStatus (some (info.expires_at.getD placeholder))
    | .error _ => r.db.setCertStatus cid .failed
  (db2, .ok { certificateId := cid, status := "pending", domain := proxy.domain })

/-- Mirrors `POST /api/ssl/request/:proxyId`: proxy ownership check, then
an existing pending certificate — or a valid one with more than 30 days
left — refuses the request with a validation error; otherwise
`requestCore` runs.  A valid certificate within the 30-day window is
NOT superseded first. -/
def requestCertificate (env : CaEnv) (now : Int) (db : Db) (uid pid : Nat)
    (extraDomains : List String) : Db × Except ApiError SslResponse :=
  match db.findProxy uid pid with
  | none => (db, .error .notFound)
  | some proxy =>
    match db.latestActiveCert pid with
    | some cert =>
      if cert.status = .pending then (db, .error .validation)
      else if daysGT30 now cert.expiresAt then (db, .error .validation)
      else requestCore env now db pid extraDomains proxy
    | none => requestCore env now db pid extraDomains proxy

/-- Main body of `POST /api/ssl/renew/:proxyId` once the gate has
passed: mark the most recent row `expired` (whatever its status),
insert a fresh pending row, run `certbotService.renew`, set the fresh
row `valid` or `failed` (`failed` in the catch), respond "pending". -/
def renewCore (env : CaEnv) (now : Int) (db : Db) (pid : Nat)
    (proxy : ProxyRow) (cert : CertRow) : Db × Except ApiError SslResponse :=
  let db1 := db.setCertStatus cert.id .expired
  let ins := db1.insertCert pid proxy.domain .pending (some (now + 90 * msPerDay))
  let db2 := ins.1
  let newId := ins.2
  let resp : SslResponse :=
    { certificateId := newId, status := "pending", domain := proxy.domain }
  match CertbotService.renew env db2 proxy.domain with
  | (db3, .ok info) =>
    if info.status = .valid then (db3.setCertStatus newId .valid, .ok resp)
    else (db3.setCertStatus newId .failed, .ok resp)
  | (db3, .error _) => (db3.setCertStatus newId .failed, .ok resp)

/-- Mirrors `POST /api/ssl/renew/:proxyId`: proxy ownership check, then
the gate — refuse only when the most recent row is `valid` with more
than 30 days left — then `renewCore`. -/
def renewCertificate (env : CaEnv) (now : Int) (db : Db) (uid pid : Nat) :
    Db × Except ApiError SslResponse :=
  match db.findProxy uid pid with
  | none => (db, .error .notFound)
  | some proxy =>
    match db.latestCert pid with
    | none => (db, .error .notFound)
    | some cert =>
      if daysGT30 now cert.expiresAt = true ∧ cert.status = .valid then
        (db, .error .validation)
      else renewCore env now db pid proxy cert

/-- Mirrors `POST /api/ssl/revoke/:id`: only a `valid` certificate may be
revoked; a certbot failure surfaces as a database error with no status
change; on success `certbotService.revoke` persists first and the row is
then set `revoked`. -/
def revokeCertificate (env : CaEnv) (db : Db) (uid cid : Nat) :
    Db × Except ApiError Unit :=
  match db.findCertOfUser uid cid with
  | none => (db, .error .notFound)
  | some cert =>
    if cert.status = .valid then
      match CertbotService.revoke env db cert.domain with
      | (db1, .ok _) => (db1.setCertStatus cid .revoked, .ok ())
      | (_, .error _) => (db, .error .database)
    else (db, .error .validation)

/-- Mirrors `DELETE /api/ssl/certificates/:id`: best-effort revoke when the row
is `valid` (failure ignored), then delete the row (cascading to its SAN
rows). -/
def deleteCertificate (env : CaEnv) (db : Db) (uid cid : Nat) :
    Db × Except ApiError Unit :=
  match db.findCertOfUser uid cid with
  | none => (db, .error .notFound)
  | some cert =>
    let db1 :=
      if cert.status = .valid then (CertbotService.revoke env db cert.domain).1
      else db
    (db1.deleteCertCascade cid, .ok ())

end SslRoutes

/-! ### Renewal scheduler (`src/api/services/renewalScheduler.ts`) -/

namespace RenewalScheduler

/-- The window test of the candidate query:
`expires_at <= DATE_ADD(NOW(), INTERVAL 30 DAY) AND expires_at > NOW()`
(NULL compares as unknown, excluding the row). -/
def expiresWithinWindow (now : Int) (e : Option Int) : Bool :=
  match e with
  | some t => decide (t ≤ now + 30 * msPerDay) && decide (now < t)
  | none => false

/-- Insert a row into a list sorted by expiry (ascending, stable). -/
def insertByExpiry (x : CertRow) : List CertRow → List CertRow
  | [] => [x]
  | y :: ys =>
    if x.expiresAt.getD 0 < y.expiresAt.getD 0 then x :: y :: ys
    else y :: insertByExpiry x ys

/-- Mirrors `ORDER BY s.expires_at ASC` as a stable insertion sort. -/
def sortByExpiry : List CertRow → List CertRow
  | [] => []
  | x :: xs => insertByExpiry x (sortByExpiry xs)

/-- The candidate query of `checkAndRenewCertificates`: valid
certificates of an existing proxy expiring within 30 days, soonest
first. -/
def schedulerCandidates (db : Db) (now : Int) : List CertRow :=
  sortByExpiry (db.certs.filter (fun c =>
    decide (c.status = .valid) && expiresWithinWindow now c.expiresAt &&
      db.proxies.any (fun p => decide (p.id = c.proxyId))))

/-- Mirrors `RenewalScheduler.renewCertificate` for one candidate: mark the row
expired, insert a fresh pending row, call `certbotService.renew`, set
the fresh row valid/failed on a clean result, and log exactly one
renewal event — `error` when the attempt threw (in which case the fresh
row is left as the renew call left it), otherwise `success`/`failed`. -/
def renewCertificate (env : CaEnv) (now : Int) (db : Db) (cert : CertRow) : Db :=
  let db1 := db.setCertStatus cert.id .expired
  let ins := db1.insertCert cert.proxyId cert.domain .pending (some (now + 90 * msPerDay))
  let db2 := ins.1
  let newId := ins.2
  match CertbotService.renew env db2 cert.domain with
  | (db3, .ok info) =>
    if info.status = .valid then
      (db3.setCertStatus newId .valid).appendLog cert.domain .success
    else
      (db3.setCertStatus newId .failed).appendLog cert.domain .failed
  | (db3, .error _) => db3.appendLog cert.domain .error

/-- The sequential per-candidate loop; `envs i` is the oracle for the
i-th candidate's renewal attempt. -/
def schedulerLoop (envs : Nat → CaEnv) (now : Int) :
    Nat → Db → List CertRow → Db
  | _, db, [] => db
  | i, db, c :: rest =>
    schedulerLoop envs now (i + 1) (renewCertificate (envs i) now db c) rest

/-- Mirrors `RenewalScheduler.checkAndRenewCertificates`: compute the candidate
list once, then process every candidate in order. -/
def checkAndRenewCertificates (envs : Nat → CaEnv) (now : Int) (db : Db) : Db :=
  schedulerLoop envs now 0 db (schedulerCandidates db now)

/-- The renewal-log outcome `renewCertificate` records for one
candidate, as a function of the oracle. -/
def expectedLogStatus (env : CaEnv) (primary : String) : RenewalLogStatus :=
  if env.renewExecOk = false then .error
  else if (CertbotService.getCertificateInfo env primary none).status = .valid then
    (if env.reloadOk then .success else .error)
  else .failed

end RenewalScheduler

/-! ### Nginx generator reload (`NginxGenerator.reloadNginx`) -/

namespace NginxGenerator

/-- The two external commands `reloadNginx` can run. -/
inductive NginxCmd where
  | configTest
  | reloadSignal
  deriving DecidableEq, Repr

/-- Oracle for the two commands. -/
structure NginxEnv where
  configTestOk : Bool
  reloadOk : Bool

/-- Mirrors `reloadNginx`: run `nginx -t`; only if it succeeds, signal
`nginx -s reload`; any failure is rethrown as an error.  Returns the
commands issued, in order, and the outcome. -/
def reloadNginx (env : NginxEnv) : List NginxCmd × Except Unit Unit :=
  if env.configTestOk = false then ([.configTest], .error ())
  else if env.reloadOk = false then ([.configTest, .reloadSignal], .error ())
  else ([.configTest, .reloadSignal], .ok ())

end NginxGenerator

/-! ### Operation alphabet and reachability -/

/-- One public certificate operation, bundling its external-world
oracle.  A scheduler pass carries one oracle per candidate. -/
inductive Op where
  | request (env : CaEnv) (now : Int) (uid pid : Nat) (extraDomains : List String)
  | renew (env : CaEnv) (now : Int) (uid pid : Nat)
  | revoke (env : CaEnv) (uid cid : Nat)
  | deleteCert (env : CaEnv) (uid cid : Nat)
  | schedulerPass (envs : Nat → CaEnv) (now : Int)

/-- Database effect of one operation. -/
def applyOp (db : Db) : Op → Db
  | .request env now uid pid extra => (SslRoutes.requestCertificate env now db uid pid extra).1
  | .renew env now uid pid => (SslRoutes.renewCertificate env now db uid pid).1
  | .revoke env uid cid => (SslRoutes.revokeCertificate env db uid cid).1
  | .deleteCert env uid cid => (SslRoutes.deleteCertificate env db uid cid).1
  | .schedulerPass envs now => RenewalScheduler.checkAndRenewCertificates envs now db

/-- Database effect of a sequence of operations. -/
def applyOps (db : Db) (ops : List Op) : Db :=
  ops.foldl applyOp db

/-- The statuses the spec declares terminal. -/
def isTerminal : CertStatus → Bool
  | .expired => true
  | .failed => true
  | .revoked => true
  | _ => false

/-- The (id, domain) projection of the proxies table; no modelled
operation ever changes it (only the tls-enabled flag is written). -/
def proxyKeys (db : Db) : List (Nat × String) :=
  db.proxies.map (fun p => (p.id, p.domain))

/-- Structural well-formedness of a database state: unique proxy ids and
domains, unique certificate ids all below the AUTO_INCREMENT counter,
and each certificate row carrying its owning proxy's domain (which is
how every code path creates them). -/
def Db.WF (db : Db) : Prop :=
  (db.proxies.map (fun p => p.id)).Nodup ∧
  (db.proxies.map (fun p => p.domain)).Nodup ∧
  (db.certs.map (fun c => c.id)).Nodup ∧
  (∀ c ∈ db.certs, c.id < db.nextCertId) ∧
  (∀ c ∈ db.certs, ∀ p ∈ db.proxies, p.id = c.proxyId → p.domain = c.domain)

/-- Evolution relation between database states: the id counter only
grows, absent rows stay absent, and rows whose status is terminal keep a
terminal status (or are deleted). -/
def Db.Evol (db db' : Db) : Prop :=
  db.nextCertId ≤ db'.nextCertId ∧
  (∀ cid, cid < db.nextCertId → db.findCert cid = none → db'.findCert cid = none) ∧
  (∀ cid c, db.findCert cid = some c → isTerminal c.status = true →
    db'.findCert cid = none ∨
      ∃ c', db'.findCert cid = some c' ∧ isTerminal c'.status = true)

/-! ### Concrete states and oracles used by counterexamples and witnesses -/

/-- An oracle on which every external command succeeds and inspection
reports a certificate valid for 90 more days. -/
def envOk : CaEnv :=
  { certbotInstalled := true, dirsOk := true, acmeSetupOk := true, issuanceOk := true,
    certFileExists := true, opensslOk := true, notBefore := some 0,
    notAfter := some (90 * msPerDay), inspectNow := 0, proxySyncOk := true,
    renewExecOk := true, reloadOk := true, revokeExecOk := true }

/-- The all-successful oracle except that the `certbot certonly`
issuance command throws. -/
def envIssuanceFails : CaEnv := { envOk with issuanceOk := false }

/-- The all-successful oracle except that the `certbot renew` command
throws. -/
def envRenewFails : CaEnv := { envOk with renewExecOk := false }

/-- One proxy whose only certificate is `valid` with 10 days left. -/
def dbValidSoon : Db :=
  { proxies := [⟨1, "app.example.com", 1, true⟩],
    certs := [⟨1, 1, "app.example.com", .valid, some (10 * msPerDay)⟩],
    sans := [], logs := [], nextCertId := 2 }

/-- One proxy whose only certificate is `failed`. -/
def dbOneFailed : Db :=
  { proxies := [⟨1, "app.example.com", 1, false⟩],
    certs := [⟨1, 1, "app.example.com", .failed, some (10 * msPerDay)⟩],
    sans := [], logs := [], nextCertId := 2 }

/-- One proxy whose only certificate is `revoked`. -/
def dbOneRevoked : Db :=
  { proxies := [⟨1, "app.example.com", 1, false⟩],
    certs := [⟨1, 1, "app.example.com", .revoked, some (10 * msPerDay)⟩],
    sans := [], logs := [], nextCertId := 2 }

/-- One proxy with a historical expired certificate (id 1) that still has
a SAN row, and a newer pending certificate (id 2). -/
def dbHistorySans : Db :=
  { proxies := [⟨1, "app.example.com", 1, true⟩],
    certs := [⟨2, 1, "app.example.com", .pending, none⟩,
              ⟨1, 1, "app.example.com", .expired, some 0⟩],
    sans := [⟨1, "old.example.com"⟩], logs := [], nextCertId := 3 }

/-- The valid outcome `persist` receives in the success path on
`dbHistorySans`'s proxy. -/
def validInfoExample : CertificateInfo :=
  { domain := "app.example.com", domains := some ["app.example.com"],
    status := .valid, issued_at := some 0, expires_at := some (90 * msPerDay) }

/-- The certificate id `persist` writes for a proxy: the most recent
existing row's id, or the fresh insert id when the proxy has no row. -/
def persistTargetId (db : Db) (proxy : ProxyRow) : Nat :=
  match db.certs.find? (fun c => decide (c.proxyId = proxy.id)) with
  | some existing => existing.id
  | none => db.nextCertId

end NgxManager

/-! ## Theorems -/

namespace NgxManager

/-! ### List helpers for the JS first-occurrence dedup -/

theorem snd_mem_of_mem_enumFrom {α : Type} :
    ∀ (l : List α) (n : Nat) (p : Nat × α), p ∈ l.enumFrom n → p.2 ∈ l
  | [], _, _, h => by simp [List.enumFrom] at h
  | a :: t, n, p, h => by
    rcases List.mem_cons.mp (by simpa [List.enumFrom] using h) with h' | h'
    · simp [h']
    · exact List.mem_cons_of_mem _ (snd_mem_of_mem_enumFrom t (n + 1) p h')

theorem indexOf_mem_enumFrom {α : Type} [DecidableEq α] :
    ∀ (l : List α) (n : Nat) (x : α), x ∈ l → (n + l.indexOf x, x) ∈ l.enumFrom n
  | a :: t, n, x, h => by
    by_cases hx : x = a
    · subst hx
      simp [List.enumFrom, List.indexOf_cons_self]
    · have hxt : x ∈ t := by
        rcases List.mem_cons.mp h with h' | h'
        · exact absurd h' hx
        · exact h'
      have ih := indexOf_mem_enumFrom t (n + 1) x hxt
      have hax : (a == x) = false := beq_eq_false_iff_ne.mpr (fun he => hx he.symm)
      have hidx : (a :: t).indexOf x = t.indexOf x + 1 := by
        simp [List.indexOf_cons, hax]
      rw [hidx]
      have harith : n + (t.indexOf x + 1) = (n + 1) + t.indexOf x := by omega
      rw [harith]
      exact List.mem_cons_of_mem _ ih

theorem mem_jsFirstOccurrences {a : List String} {x : String} :
    x ∈ CertbotService.jsFirstOccurrences a ↔ x ∈ a := by
  constructor
  · intro h
    rcases List.mem_map.mp h with ⟨p, hp, rfl⟩
    have hpe : p ∈ a.enumFrom 0 := by
      simpa [List.enum] using List.mem_of_mem_filter hp
    exact snd_mem_of_mem_enumFrom a 0 p hpe
  · intro h
    refine List.mem_map.mpr ⟨(a.indexOf x, x), ?_, rfl⟩
    refine List.mem_filter.mpr ⟨?_, by simp⟩
    have := indexOf_mem_enumFrom a 0 x h
    simpa [List.enum] using this

theorem nodup_jsFirstOccurrences (a : List String) :
    (CertbotService.jsFirstOccurrences a).Nodup := by
  unfold CertbotService.jsFirstOccurrences
  have h1 : List.Pairwise (fun p q : Nat × String => p.1 ≠ q.1) a.enum := by
    have h0 : (a.enum.map Prod.fst).Nodup := by
      rw [List.enum_map_fst]; exact List.nodup_range _
    exact List.pairwise_map.mp h0
  have h2 := h1.filter (fun p => decide (a.indexOf p.2 = p.1))
  have h3 : List.Pairwise (fun p q : Nat × String => p.2 ≠ q.2)
      (a.enum.filter (fun p => decide (a.indexOf p.2 = p.1))) := by
    refine h2.imp_of_mem ?_
    intro p q hp hq hne he
    have hp' : a.indexOf p.2 = p.1 := by simpa using List.of_mem_filter hp
    have hq' : a.indexOf q.2 = q.1 := by simpa using List.of_mem_filter hq
    exact hne (by rw [← hp', ← hq', he])
  exact List.pairwise_map.mpr h3

theorem dedupDomains_head (primary : String) (extra : List String) :
    (CertbotService.dedupDomains primary extra).head? = some primary := by
  unfold CertbotService.dedupDomains CertbotService.jsFirstOccurrences
  rw [List.enum_cons, List.filter_cons]
  simp [List.indexOf_cons_self]

theorem nodup_dedupDomains (primary : String) (extra : List String) :
    (CertbotService.dedupDomains primary extra).Nodup :=
  nodup_jsFirstOccurrences _

theorem mem_dedupDomains (primary x : String) (extra : List String) :
    x ∈ CertbotService.dedupDomains primary extra ↔
      x = primary ∨ (x ∈ extra ∧ x ≠ "" ∧ x ≠ primary) := by
  unfold CertbotService.dedupDomains
  rw [mem_jsFirstOccurrences]
  simp [List.mem_filter, and_assoc]

/-! ### Branch equations for `obtainCertificate` and `renew` -/

theorem obtain_eq_setup_fail {env : CaEnv} (db : Db) (primary : String)
    (extra : List String)
    (h : env.certbotInstalled = false ∨ env.dirsOk = false ∨ env.acmeSetupOk = false) :
    CertbotService.obtainCertificate env db primary extra =
      ⟨db, false, 0, [], .error ()⟩ := by
  unfold CertbotService.obtainCertificate
  rcases h with h | h | h <;> simp [h]

theorem obtain_eq_issuance_fail {env : CaEnv} (db : Db) (primary : String)
    (extra : List String)
    (h1 : env.certbotInstalled = true) (h2 : env.dirsOk = true)
    (h3 : env.acmeSetupOk = true) (h4 : env.issuanceOk = false) :
    CertbotService.obtainCertificate env db primary extra =
      ⟨CertbotService.persist db primary
          (CertbotService.failedInfo primary (some (CertbotService.dedupDomains primary extra))),
        true, 1, [CertbotService.dedupDomains primary extra], .error ()⟩ := by
  unfold CertbotService.obtainCertificate
  simp [h1, h2, h3, h4]

theorem obtain_eq_not_valid {env : CaEnv} (db : Db) (primary : String)
    (extra : List String)
    (h1 : env.certbotInstalled = true) (h2 : env.dirsOk = true)
    (h3 : env.acmeSetupOk = true) (h4 : env.issuanceOk = true)
    (h5 : (CertbotService.getCertificateInfo env primary
      (some (CertbotService.dedupDomains primary extra))).status ≠ .valid) :
    CertbotService.obtainCertificate env db primary extra =
      ⟨CertbotService.persist db primary
          (CertbotService.failedInfo primary (some (CertbotService.dedupDomains primary extra))),
        true, 1, [CertbotService.dedupDomains primary extra], .error ()⟩ := by
  unfold CertbotService.obtainCertificate
  simp [h1, h2, h3, h4, h5]

theorem obtain_eq_sync_fail {env : CaEnv} (db : Db) (primary : String)
    (extra : List String)
    (h1 : env.certbotInstalled = true) (h2 : env.dirsOk = true)
    (h3 : env.acmeSetupOk = true) (h4 : env.issuanceOk = true)
    (h5 : (CertbotService.getCertificateInfo env primary
      (some (CertbotService.dedupDomains primary extra))).status = .valid)
    (h6 : env.proxySyncOk = false) :
    CertbotService.obtainCertificate env db primary extra =
      ⟨CertbotService.persist
          (CertbotService.enableProxySSL
            (CertbotService.persist db primary
              (CertbotService.getCertificateInfo env primary
                (some (CertbotService.dedupDomains primary extra)))) primary) primary
          (CertbotService.failedInfo primary (some (CertbotService.dedupDomains primary extra))),
        true, 1, [CertbotService.dedupDomains primary extra], .error ()⟩ := by
  unfold CertbotService.obtainCertificate
  simp [h1, h2, h3, h4, h5, h6]

theorem obtain_eq_success {env : CaEnv} (db : Db) (primary : String)
    (extra : List String)
    (h1 : env.certbotInstalled = true) (h2 : env.dirsOk = true)
    (h3 : env.acmeSetupOk = true) (h4 : env.issuanceOk = true)
    (h5 : (CertbotService.getCertificateInfo env primary
      (some (CertbotService.dedupDomains primary extra))).status = .valid)
    (h6 : env.proxySyncOk = true) :
    CertbotService.obtainCertificate env db primary extra =
      ⟨CertbotService.enableProxySSL
          (CertbotService.persist db primary
            (CertbotService.getCertificateInfo env primary
              (some (CertbotService.dedupDomains primary extra)))) primary,
        true, 1, [CertbotService.dedupDomains primary extra],
        .ok (CertbotService.getCertificateInfo env primary
          (some (CertbotService.dedupDomains primary extra)))⟩ := by
  unfold CertbotService.obtainCertificate
  simp [h1, h2, h3, h4, h5, h6]

/-- Case split on every execution path of `obtainCertificate`: either
the challenge routing was never stood up (and nothing at all happened),
or it was stood up and the issuance command ran exactly once.  -/
theorem obtain_shape (env : CaEnv) (db : Db) (primary : String)
    (extra : List String) :
    (CertbotService.obtainCertificate env db primary extra =
        ⟨db, false, 0, [], .error ()⟩ ∧
      (env.certbotInstalled = false ∨ env.dirsOk = false ∨ env.acmeSetupOk = false)) ∨
    ((CertbotService.obtainCertificate env db primary extra).setupDone = true ∧
      (CertbotService.obtainCertificate env db primary extra).teardownCount = 1 ∧
      (CertbotService.obtainCertificate env db primary extra).issuanceCalls =
        [CertbotService.dedupDomains primary extra] ∧
      env.certbotInstalled = true ∧ env.dirsOk = true ∧ env.acmeSetupOk = true) := by
  by_cases h1 : env.certbotInstalled = false
  · exact Or.inl ⟨obtain_eq_setup_fail db primary extra (Or.inl h1), Or.inl h1⟩
  by_cases h2 : env.dirsOk = false
  · exact Or.inl ⟨obtain_eq_setup_fail db primary extra (Or.inr (Or.inl h2)), Or.inr (Or.inl h2)⟩
  by_cases h3 : env.acmeSetupOk = false
  · exact Or.inl ⟨obtain_eq_setup_fail db primary extra (Or.inr (Or.inr h3)), Or.inr (Or.inr h3)⟩
  have h1' : env.certbotInstalled = true := by simpa using h1
  have h2' : env.dirsOk = true := by simpa using h2
  have h3' : env.acmeSetupOk = true := by simpa using h3
  right
  refine ⟨?_, ?_, ?_, h1', h2', h3'⟩ <;>
  · by_cases h4 : env.issuanceOk = false
    · rw [obtain_eq_issuance_fail db primary extra h1' h2' h3' h4]
    · have h4' : env.issuanceOk = true := by simpa using h4
      by_cases h5 : (CertbotService.getCertificateInfo env primary
          (some (CertbotService.dedupDomains primary extra))).status = .valid
      · by_cases h6 : env.proxySyncOk = false
        · rw [obtain_eq_sync_fail db primary extra h1' h2' h3' h4' h5 h6]
        · have h6' : env.proxySyncOk = true := by simpa using h6
          rw [obtain_eq_success db primary extra h1' h2' h3' h4' h5 h6']
      · rw [obtain_eq_not_valid db primary extra h1' h2' h3' h4' h5]

theorem renew_eq_exec_fail {env : CaEnv} (db : Db) (primary : String)
    (h : env.renewExecOk = false) :
    CertbotService.renew env db primary = (db, .error ()) := by
  unfold CertbotService.renew
  simp [h]

theorem renew_eq_throw_reload {env : CaEnv} (db : Db) (primary : String)
    (h1 : env.renewExecOk = true)
    (h2 : (CertbotService.getCertificateInfo env primary none).status = .valid)
    (h3 : env.reloadOk = false) :
    CertbotService.renew env db primary =
      (CertbotService.persist db primary (CertbotService.getCertificateInfo env primary none),
        .error ()) := by
  unfold CertbotService.renew
  simp [h1, h2, h3]

theorem renew_eq_ok {env : CaEnv} (db : Db) (primary : String)
    (h1 : env.renewExecOk = true)
    (h2 : ¬((CertbotService.getCertificateInfo env primary none).status = .valid ∧
      env.reloadOk = false)) :
    CertbotService.renew env db primary =
      (CertbotService.persist db primary (CertbotService.getCertificateInfo env primary none),
        .ok (CertbotService.getCertificateInfo env primary none)) := by
  unfold CertbotService.renew
  dsimp only
  rw [if_neg (by simp [h1]), if_neg h2]

/-- C5: on every execution of `obtainCertificate` — whatever the
installation check, the issuance command, the inspection, the
persistence, or the proxy re-render do — the temporary ACME challenge
routing is torn down exactly once whenever it was stood up, and it is
stood up exactly when the installation check, directory preparation and
routing setup all succeed.  (The database layer is modelled as a pure
state and so cannot itself throw; every other step's failure is
covered.) -/
theorem obtain_teardown_exactly_once (env : CaEnv) (db : Db) (primary : String)
    (extra : List String) :
    (CertbotService.obtainCertificate env db primary extra).teardownCount =
      (if (CertbotService.obtainCertificate env db primary extra).setupDone then 1 else 0) ∧
    (CertbotService.obtainCertificate env db primary extra).setupDone =
      (env.certbotInstalled && env.dirsOk && env.acmeSetupOk) := by
  rcases obtain_shape env db primary extra with ⟨he, hf⟩ | ⟨hs, ht, _, hi, hd, ha⟩
  · rw [he]
    refine ⟨rfl, ?_⟩
    rcases hf with h | h | h <;> simp [h]
  · rw [hs, ht]
    simp [hi, hd, ha]

/-- C7: `obtainCertificate` builds the issued domain set by putting the
primary domain first and removing duplicates by case-sensitive exact
equality, and passes the whole deduplicated set to a single issuance
invocation (exactly one when the routing was stood up, none
otherwise). -/
theorem obtain_dedup_single_invocation (env : CaEnv) (db : Db) (primary : String)
    (extra : List String) :
    (CertbotService.obtainCertificate env db primary extra).issuanceCalls =
      (if (CertbotService.obtainCertificate env db primary extra).setupDone
        then [CertbotService.dedupDomains primary extra] else []) ∧
    (CertbotService.dedupDomains primary extra).head? = some primary ∧
    (CertbotService.dedupDomains primary extra).Nodup ∧
    (∀ x, x ∈ CertbotService.dedupDomains primary extra ↔
      x = primary ∨ (x ∈ extra ∧ x ≠ "" ∧ x ≠ primary)) := by
  refine ⟨?_, dedupDomains_head primary extra, nodup_dedupDomains primary extra,
    fun x => mem_dedupDomains primary x extra⟩
  rcases obtain_shape env db primary extra with ⟨he, _⟩ | ⟨hs, _, hic, _, _, _⟩
  · rw [he]; rfl
  · rw [hs, hic]; rfl

/-- C8: `reloadNginx` runs the syntax validation command first and, when
validation fails, surfaces an error without ever issuing the reload
signal. -/
theorem reloadNginx_validation_gates_reload (env : NginxGenerator.NginxEnv)
    (h : env.configTestOk = false) :
    (NginxGenerator.reloadNginx env).2 = .error () ∧
    NginxGenerator.NginxCmd.reloadSignal ∉ (NginxGenerator.reloadNginx env).1 ∧
    (NginxGenerator.reloadNginx env).1 = [NginxGenerator.NginxCmd.configTest] := by
  simp [NginxGenerator.reloadNginx, h]

/-- Witness for C8 at a concrete oracle whose syntax check fails. -/
theorem reloadNginx_validation_gates_reload_witness :
    (NginxGenerator.reloadNginx ⟨false, true⟩).2 = .error () ∧
    NginxGenerator.NginxCmd.reloadSignal ∉ (NginxGenerator.reloadNginx ⟨false, true⟩).1 ∧
    (NginxGenerator.reloadNginx ⟨false, true⟩).1 = [NginxGenerator.NginxCmd.configTest] :=
  reloadNginx_validation_gates_reload ⟨false, true⟩ rfl

/-! ### Frame lemmas: the SAN and log writers leave the other tables alone -/

theorem insertSanIgnore_certs (db : Db) (cid : Nat) (d : String) :
    (db.insertSanIgnore cid d).certs = db.certs := by
  unfold Db.insertSanIgnore; split <;> rfl

theorem insertSanIgnore_logs (db : Db) (cid : Nat) (d : String) :
    (db.insertSanIgnore cid d).logs = db.logs := by
  unfold Db.insertSanIgnore; split <;> rfl

theorem insertSanIgnore_proxies (db : Db) (cid : Nat) (d : String) :
    (db.insertSanIgnore cid d).proxies = db.proxies := by
  unfold Db.insertSanIgnore; split <;> rfl

theorem insertSanIgnore_nextCertId (db : Db) (cid : Nat) (d : String) :
    (db.insertSanIgnore cid d).nextCertId = db.nextCertId := by
  unfold Db.insertSanIgnore; split <;> rfl

theorem foldlSan_certs (cid : Nat) :
    ∀ (ds : List String) (db : Db),
      (ds.foldl (fun a d => a.insertSanIgnore cid d) db).certs = db.certs
  | [], _ => rfl
  | d :: t, db => by
    rw [List.foldl_cons, foldlSan_certs cid t, insertSanIgnore_certs]

theorem foldlSan_logs (cid : Nat) :
    ∀ (ds : List String) (db : Db),
      (ds.foldl (fun a d => a.insertSanIgnore cid d) db).logs = db.logs
  | [], _ => rfl
  | d :: t, db => by
    rw [List.foldl_cons, foldlSan_logs cid t, insertSanIgnore_logs]

theorem foldlSan_proxies (cid : Nat) :
    ∀ (ds : List String) (db : Db),
      (ds.foldl (fun a d => a.insertSanIgnore cid d) db).proxies = db.proxies
  | [], _ => rfl
  | d :: t, db => by
    rw [List.foldl_cons, foldlSan_proxies cid t, insertSanIgnore_proxies]

theorem foldlSan_nextCertId (cid : Nat) :
    ∀ (ds : List String) (db : Db),
      (ds.foldl (fun a d => a.insertSanIgnore cid d) db).nextCertId = db.nextCertId
  | [], _ => rfl
  | d :: t, db => by
    rw [List.foldl_cons, foldlSan_nextCertId cid t, insertSanIgnore_nextCertId]

theorem persistSans_certs (db : Db) (pid certId : Nat) (domains : Option (List String)) :
    (CertbotService.persistSans db pid certId domains).certs = db.certs := by
  unfold CertbotService.persistSans
  rcases domains with _ | ds
  · rfl
  · dsimp only
    split_ifs <;> simp [foldlSan_certs, Db.deleteSansForProxy]

theorem persistSans_logs (db : Db) (pid certId : Nat) (domains : Option (List String)) :
    (CertbotService.persistSans db pid certId domains).logs = db.logs := by
  unfold CertbotService.persistSans
  rcases domains with _ | ds
  · rfl
  · dsimp only
    split_ifs <;> simp [foldlSan_logs, Db.deleteSansForProxy]

theorem persistSans_proxies (db : Db) (pid certId : Nat) (domains : Option (List String)) :
    (CertbotService.persistSans db pid certId domains).proxies = db.proxies := by
  unfold CertbotService.persistSans
  rcases domains with _ | ds
  · rfl
  · dsimp only
    split_ifs <;> simp [foldlSan_proxies, Db.deleteSansForProxy]

theorem persistSans_nextCertId (db : Db) (pid certId : Nat) (domains : Option (List String)) :
    (CertbotService.persistSans db pid certId domains).nextCertId = db.nextCertId := by
  unfold CertbotService.persistSans
  rcases domains with _ | ds
  · rfl
  · dsimp only
    split_ifs <;> simp [foldlSan_nextCertId, Db.deleteSansForProxy]

theorem persist_eq_no_proxy {db : Db} {primary : String} (info : CertificateInfo)
    (h : db.proxies.find? (fun p => decide (p.domain = primary)) = none) :
    CertbotService.persist db primary info = db := by
  unfold CertbotService.persist
  simp only [h]

theorem persist_eq_update {db : Db} {primary : String} {proxy : ProxyRow}
    {existing : CertRow} (info : CertificateInfo)
    (hfp : db.proxies.find? (fun p => decide (p.domain = primary)) = some proxy)
    (hfc : db.certs.find? (fun c => decide (c.proxyId = proxy.id)) = some existing) :
    CertbotService.persist db primary info =
      CertbotService.persistSans (db.updateCert existing.id info.status info.expires_at)
        proxy.id existing.id info.domains := by
  unfold CertbotService.persist
  simp only [hfp, hfc]

theorem persist_eq_insert {db : Db} {primary : String} {proxy : ProxyRow}
    (info : CertificateInfo)
    (hfp : db.proxies.find? (fun p => decide (p.domain = primary)) = some proxy)
    (hfc : db.certs.find? (fun c => decide (c.proxyId = proxy.id)) = none) :
    CertbotService.persist db primary info =
      CertbotService.persistSans
        (db.insertCert proxy.id primary info.status info.expires_at).1
        proxy.id db.nextCertId info.domains := by
  unfold CertbotService.persist
  simp only [hfp, hfc]
  rfl

theorem persist_logs (db : Db) (primary : String) (info : CertificateInfo) :
    (CertbotService.persist db primary info).logs = db.logs := by
  rcases hfp : db.proxies.find? (fun p => decide (p.domain = primary)) with _ | proxy
  · rw [persist_eq_no_proxy info hfp]
  · rcases hfc : db.certs.find? (fun c => decide (c.proxyId = proxy.id)) with _ | existing
    · rw [persist_eq_insert info hfp hfc, persistSans_logs]
      rfl
    · rw [persist_eq_update info hfp hfc, persistSans_logs]
      rfl

theorem persist_proxies (db : Db) (primary : String) (info : CertificateInfo) :
    (CertbotService.persist db primary info).proxies = db.proxies := by
  rcases hfp : db.proxies.find? (fun p => decide (p.domain = primary)) with _ | proxy
  · rw [persist_eq_no_proxy info hfp]
  · rcases hfc : db.certs.find? (fun c => decide (c.proxyId = proxy.id)) with _ | existing
    · rw [persist_eq_insert info hfp hfc, persistSans_proxies]
      rfl
    · rw [persist_eq_update info hfp hfc, persistSans_proxies]
      rfl

/-! ### Scheduler pass: one log entry per candidate, no fail-fast -/

theorem scheduler_renewOne_logs (env : CaEnv) (now : Int) (db : Db) (cert : CertRow) :
    (RenewalScheduler.renewCertificate env now db cert).logs =
      db.logs ++ [⟨cert.domain, RenewalScheduler.expectedLogStatus env cert.domain⟩] := by
  unfold RenewalScheduler.renewCertificate RenewalScheduler.expectedLogStatus
  dsimp only
  by_cases h1 : env.renewExecOk = false
  · rw [renew_eq_exec_fail _ _ h1]
    simp [h1, Db.appendLog, Db.setCertStatus, Db.insertCert]
  · have h1' : env.renewExecOk = true := by simpa using h1
    by_cases h2 : (CertbotService.getCertificateInfo env cert.domain none).status = .valid
    · by_cases h3 : env.reloadOk = false
      · rw [renew_eq_throw_reload _ _ h1' h2 h3]
        simp [h1', h2, h3, Db.appendLog, Db.setCertStatus, Db.insertCert, persist_logs]
      · have h3' : env.reloadOk = true := by simpa using h3
        rw [renew_eq_ok _ _ h1' (by simp [h3'])]
        simp [h1', h2, h3', Db.appendLog, Db.setCertStatus, Db.insertCert, persist_logs]
    · rw [renew_eq_ok _ _ h1' (by simp [h2])]
      simp [h1', h2, Db.appendLog, Db.setCertStatus, Db.insertCert, persist_logs]

theorem schedulerLoop_logs (envs : Nat → CaEnv) (now : Int) :
    ∀ (cands : List CertRow) (i : Nat) (db : Db),
      (RenewalScheduler.schedulerLoop envs now i db cands).logs =
        db.logs ++ (cands.enumFrom i).map
          (fun p => ⟨p.2.domain, RenewalScheduler.expectedLogStatus (envs p.1) p.2.domain⟩)
  | [], i, db => by simp [RenewalScheduler.schedulerLoop, List.enumFrom]
  | c :: rest, i, db => by
    rw [show RenewalScheduler.schedulerLoop envs now i db (c :: rest) =
        RenewalScheduler.schedulerLoop envs now (i + 1)
          (RenewalScheduler.renewCertificate (envs i) now db c) rest from rfl]
    rw [schedulerLoop_logs envs now rest (i + 1) _]
    rw [scheduler_renewOne_logs]
    simp [List.enumFrom]

/-- C6: a scheduler pass processes all candidates — no failure stops the
loop — and appends exactly one renewal-log entry per candidate:
`error` when the attempt threw, `failed` when the CA reported a clean
negative result, `success` when the renewed certificate is valid
(see `expectedLogStatus`). -/
theorem scheduler_processes_all_and_logs_each (envs : Nat → CaEnv) (now : Int) (db : Db) :
    (RenewalScheduler.checkAndRenewCertificates envs now db).logs =
      db.logs ++ (RenewalScheduler.schedulerCandidates db now).enum.map
        (fun p => ⟨p.2.domain, RenewalScheduler.expectedLogStatus (envs p.1) p.2.domain⟩) ∧
    (RenewalScheduler.checkAndRenewCertificates envs now db).logs.length =
      db.logs.length + (RenewalScheduler.schedulerCandidates db now).length := by
  have h := schedulerLoop_logs envs now (RenewalScheduler.schedulerCandidates db now) 0 db
  have he : (RenewalScheduler.checkAndRenewCertificates envs now db).logs =
      db.logs ++ (RenewalScheduler.schedulerCandidates db now).enum.map
        (fun p => ⟨p.2.domain, RenewalScheduler.expectedLogStatus (envs p.1) p.2.domain⟩) := by
    simpa [RenewalScheduler.checkAndRenewCertificates, List.enum] using h
  refine ⟨he, ?_⟩
  rw [he]
  simp [List.enumFrom_length]

/-! ### Row lookup and update lemmas -/

theorem updRow_id (cid : Nat) (st : CertStatus) (e : Option Int) (c : CertRow) :
    (updRow cid st e c).id = c.id := by
  unfold updRow; split <;> rfl

theorem updRow_proxyId (cid : Nat) (st : CertStatus) (e : Option Int) (c : CertRow) :
    (updRow cid st e c).proxyId = c.proxyId := by
  unfold updRow; split <;> rfl

theorem updRow_domain (cid : Nat) (st : CertStatus) (e : Option Int) (c : CertRow) :
    (updRow cid st e c).domain = c.domain := by
  unfold updRow; split <;> rfl

theorem updStatusRow_id (cid : Nat) (st : CertStatus) (c : CertRow) :
    (updStatusRow cid st c).id = c.id := by
  unfold updStatusRow; split <;> rfl

theorem updStatusRow_proxyId (cid : Nat) (st : CertStatus) (c : CertRow) :
    (updStatusRow cid st c).proxyId = c.proxyId := by
  unfold updStatusRow; split <;> rfl

theorem updStatusRow_domain (cid : Nat) (st : CertStatus) (c : CertRow) :
    (updStatusRow cid st c).domain = c.domain := by
  unfold updStatusRow; split <;> rfl

theorem map_updRow_of_ne (cid : Nat) (st : CertStatus) (e : Option Int) :
    ∀ (l : List CertRow), (∀ c ∈ l, c.id ≠ cid) → l.map (updRow cid st e) = l
  | [], _ => rfl
  | c :: t, h => by
    rw [List.map_cons,
      map_updRow_of_ne cid st e t (fun x hx => h x (List.mem_cons_of_mem _ hx))]
    unfold updRow
    rw [if_neg (h c (List.mem_cons_self c t))]

theorem map_updStatusRow_of_ne (cid : Nat) (st : CertStatus) :
    ∀ (l : List CertRow), (∀ c ∈ l, c.id ≠ cid) → l.map (updStatusRow cid st) = l
  | [], _ => rfl
  | c :: t, h => by
    rw [List.map_cons,
      map_updStatusRow_of_ne cid st t (fun x hx => h x (List.mem_cons_of_mem _ hx))]
    unfold updStatusRow
    rw [if_neg (h c (List.mem_cons_self c t))]

theorem findId_map {g : CertRow → CertRow} (hg : ∀ c, (g c).id = c.id)
    (l : List CertRow) (cid : Nat) :
    findId (l.map g) cid = (findId l cid).map g := by
  unfold findId
  have hp : ((fun c : CertRow => decide (c.id = cid)) ∘ g) =
      (fun c : CertRow => decide (c.id = cid)) := by
    funext c; simp [Function.comp, hg]
  rw [List.find?_map, hp]

theorem findId_cons (r : CertRow) (l : List CertRow) (cid : Nat) :
    findId (r :: l) cid = if r.id = cid then some r else findId l cid := by
  unfold findId
  by_cases h : r.id = cid
  · rw [List.find?_cons_of_pos _ (by simp [h]), if_pos h]
  · rw [List.find?_cons_of_neg _ (by simp [h]), if_neg h]

theorem findId_filter_ne (delId cid : Nat) (h : cid ≠ delId) :
    ∀ (l : List CertRow),
      findId (l.filter (fun c => !decide (c.id = delId))) cid = findId l cid
  | [] => rfl
  | c :: t => by
    by_cases hc : c.id = delId
    · have hp : (!decide (c.id = delId)) = false := by simp [hc]
      rw [List.filter_cons, hp, if_neg (by simp)]
      rw [findId_filter_ne delId cid h t]
      rw [findId_cons, if_neg (by rw [hc]; exact fun he => h he.symm)]
    · have hp : (!decide (c.id = delId)) = true := by simp [hc]
      rw [List.filter_cons, hp, if_pos rfl]
      rw [findId_cons, findId_cons, findId_filter_ne delId cid h t]

theorem findId_filter_self (delId : Nat) (l : List CertRow) :
    findId (l.filter (fun c => !decide (c.id = delId))) delId = none := by
  unfold findId
  rw [List.find?_eq_none]
  intro x hx
  have hx' := List.of_mem_filter hx
  simp at hx' ⊢
  exact hx'

theorem findId_some_props {l : List CertRow} {cid : Nat} {c : CertRow}
    (h : findId l cid = some c) : c ∈ l ∧ c.id = cid := by
  refine ⟨List.mem_of_find?_eq_some h, ?_⟩
  have := List.find?_some h
  simpa using this

theorem find?_domain_of_nodup :
    ∀ {l : List ProxyRow} {p : ProxyRow},
      (l.map (fun q => q.domain)).Nodup → p ∈ l → ∀ d, p.domain = d →
      l.find? (fun q => decide (q.domain = d)) = some p
  | [], _, _, hp, _, _ => absurd hp (List.not_mem_nil _)
  | c :: t, p, hnd, hp, d, hd => by
    rcases List.mem_cons.mp hp with rfl | hp'
    · exact List.find?_cons_of_pos _ (by simp [hd])
    · have hnd' : (c.domain :: t.map (fun q => q.domain)).Nodup := by
        simpa using hnd
      have hcd : c.domain ≠ d := by
        intro he
        have hmem : d ∈ t.map (fun q => q.domain) :=
          List.mem_map.mpr ⟨p, hp', hd⟩
        exact (List.nodup_cons.mp hnd').1 (he ▸ hmem)
      rw [List.find?_cons_of_neg _ (by simp [hcd])]
      exact find?_domain_of_nodup (List.nodup_cons.mp hnd').2 hp' d hd

theorem proxy_domain_unique {db : Db} (hWF : db.WF) {p : ProxyRow} {pid : Nat}
    {dom : String} (hp : p ∈ db.proxies) (hid : p.id = pid) (hdom : p.domain = dom) :
    ∀ q ∈ db.proxies, q.id = pid → q.domain = dom := by
  intro q hq hqid
  have : q = p := List.inj_on_of_nodup_map hWF.1 hq hp (by rw [hid, hqid])
  rw [this, hdom]

theorem keys_transfer {db db' : Db} (hkeys : proxyKeys db' = proxyKeys db) :
    ∀ p' ∈ db'.proxies, ∃ p ∈ db.proxies, p.id = p'.id ∧ p.domain = p'.domain := by
  intro p' hp'
  have hmem : (p'.id, p'.domain) ∈ proxyKeys db := by
    rw [← hkeys]; exact List.mem_map.mpr ⟨p', hp', rfl⟩
  rcases List.mem_map.mp hmem with ⟨p, hp, he⟩
  have h1 : p.id = p'.id := congrArg Prod.fst he
  have h2 : p.domain = p'.domain := congrArg Prod.snd he
  exact ⟨p, hp, h1, h2⟩

theorem proxies_map_of_keys {db db' : Db} (hkeys : proxyKeys db' = proxyKeys db) :
    db'.proxies.map (fun p => p.id) = db.proxies.map (fun p => p.id) ∧
    db'.proxies.map (fun p => p.domain) = db.proxies.map (fun p => p.domain) := by
  constructor
  · have h1 := congrArg (List.map Prod.fst) hkeys
    simpa [proxyKeys, List.map_map, Function.comp] using h1
  · have h2 := congrArg (List.map Prod.snd) hkeys
    simpa [proxyKeys, List.map_map, Function.comp] using h2

/-! ### Transfer lemmas for well-formedness and evolution -/

theorem WF_map_shape {db db' : Db} (hWF : db.WF) (g : CertRow → CertRow)
    (hg : ∀ c, (g c).id = c.id ∧ (g c).proxyId = c.proxyId ∧ (g c).domain = c.domain)
    (hcerts : db'.certs = db.certs.map g)
    (hprox : db'.proxies = db.proxies)
    (hnext : db'.nextCertId = db.nextCertId) : db'.WF := by
  obtain ⟨h1, h2, h3, h4, h5⟩ := hWF
  refine ⟨by rw [hprox]; exact h1, by rw [hprox]; exact h2, ?_, ?_, ?_⟩
  · rw [hcerts, List.map_map]
    have : ((fun c : CertRow => c.id) ∘ g) = fun c : CertRow => c.id := by
      funext c; exact (hg c).1
    rw [this]; exact h3
  · intro c hc
    rw [hcerts] at hc
    rcases List.mem_map.mp hc with ⟨c0, hc0, rfl⟩
    rw [hnext, (hg c0).1]
    exact h4 c0 hc0
  · intro c hc p hp hpc
    rw [hcerts] at hc
    rw [hprox] at hp
    rcases List.mem_map.mp hc with ⟨c0, hc0, rfl⟩
    rw [(hg c0).2.1] at hpc
    rw [(hg c0).2.2]
    exact h5 c0 hc0 p hp hpc

theorem WF_insert_shape {db db' : Db} (hWF : db.WF) (g : CertRow → CertRow)
    (hg : ∀ c, (g c).id = c.id ∧ (g c).proxyId = c.proxyId ∧ (g c).domain = c.domain)
    (pid : Nat) (dom : String) (st : CertStatus) (e : Option Int)
    (hcerts : db'.certs = ⟨db.nextCertId, pid, dom, st, e⟩ :: db.certs.map g)
    (hkeys : proxyKeys db' = proxyKeys db)
    (hnext : db'.nextCertId = db.nextCertId + 1)
    (hdom : ∀ p ∈ db.proxies, p.id = pid → p.domain = dom) : db'.WF := by
  obtain ⟨h1, h2, h3, h4, h5⟩ := hWF
  obtain ⟨hk1, hk2⟩ := proxies_map_of_keys hkeys
  have hmapid : db.certs.map ((fun c : CertRow => c.id) ∘ g) =
      db.certs.map (fun c : CertRow => c.id) := by
    apply List.map_congr_left
    intro c _
    exact (hg c).1
  refine ⟨by rw [hk1]; exact h1, by rw [hk2]; exact h2, ?_, ?_, ?_⟩
  · rw [hcerts]
    rw [List.map_cons, List.map_map, hmapid]
    refine List.nodup_cons.mpr ⟨?_, h3⟩
    intro hmem
    rcases List.mem_map.mp hmem with ⟨c0, hc0, he0⟩
    exact absurd he0 (Nat.ne_of_lt (h4 c0 hc0))
  · intro c hc
    rw [hcerts] at hc
    rcases List.mem_cons.mp hc with rfl | hc'
    · rw [hnext]; exact Nat.lt_succ_self _
    · rcases List.mem_map.mp hc' with ⟨c0, hc0, rfl⟩
      rw [hnext, (hg c0).1]
      exact Nat.lt_succ_of_lt (h4 c0 hc0)
  · intro c hc p hp hpc
    rcases keys_transfer hkeys p hp with ⟨p0, hp0, hpid0, hpdom0⟩
    rw [hcerts] at hc
    rcases List.mem_cons.mp hc with rfl | hc'
    · rw [← hpdom0]
      exact hdom p0 hp0 (by rw [hpid0]; exact hpc)
    · rcases List.mem_map.mp hc' with ⟨c0, hc0, rfl⟩
      rw [(hg c0).2.1] at hpc
      rw [(hg c0).2.2, ← hpdom0]
      exact h5 c0 hc0 p0 hp0 (by rw [hpid0]; exact hpc)

theorem Evol_refl (db : Db) : db.Evol db := by
  refine ⟨le_refl _, fun _ _ h => h, fun cid c hf ht => Or.inr ⟨c, hf, ht⟩⟩

theorem Evol_trans {a b c : Db}
    (hbound : ∀ r ∈ a.certs, r.id < a.nextCertId)
    (h1 : a.Evol b) (h2 : b.Evol c) : a.Evol c := by
  obtain ⟨m1, d1, t1⟩ := h1
  obtain ⟨m2, d2, t2⟩ := h2
  refine ⟨le_trans m1 m2, ?_, ?_⟩
  · intro cid hlt hnone
    exact d2 cid (lt_of_lt_of_le hlt m1) (d1 cid hlt hnone)
  · intro cid r hfind hterm
    have hcid : cid < a.nextCertId := by
      obtain ⟨hmem, hid⟩ := findId_some_props hfind
      rw [← hid]; exact hbound r hmem
    rcases t1 cid r hfind hterm with hn | ⟨r', hr', ht'⟩
    · exact Or.inl (d2 cid (lt_of_lt_of_le hcid m1) hn)
    · exact t2 cid r' hr' ht'

theorem Evol_map_shape {db db' : Db} (g : CertRow → CertRow)
    (hid : ∀ c, (g c).id = c.id)
    (hterm : ∀ c, isTerminal c.status = true → isTerminal (g c).status = true)
    (hcerts : db'.certs = db.certs.map g)
    (hnext : db'.nextCertId = db.nextCertId) : db.Evol db' := by
  refine ⟨le_of_eq hnext.symm, ?_, ?_⟩
  · intro cid _ hnone
    show findId db'.certs cid = none
    rw [hcerts, findId_map hid]
    rw [show findId db.certs cid = none from hnone]
    rfl
  · intro cid c hf ht
    right
    refine ⟨g c, ?_, hterm c ht⟩
    show findId db'.certs cid = some (g c)
    rw [hcerts, findId_map hid]
    rw [show findId db.certs cid = some c from hf]
    rfl

theorem Evol_insert_shape {db db' : Db} (g : CertRow → CertRow) {fresh : CertRow}
    (hbound : ∀ c ∈ db.certs, c.id < db.nextCertId)
    (hid : ∀ c, (g c).id = c.id)
    (hterm : ∀ c, isTerminal c.status = true → isTerminal (g c).status = true)
    (hcerts : db'.certs = fresh :: db.certs.map g)
    (hfid : fresh.id = db.nextCertId)
    (hnext : db'.nextCertId = db.nextCertId + 1) : db.Evol db' := by
  refine ⟨by rw [hnext]; exact Nat.le_succ _, ?_, ?_⟩
  · intro cid hlt hnone
    show findId db'.certs cid = none
    rw [hcerts, findId_cons, if_neg (by rw [hfid]; exact Nat.ne_of_gt hlt)]
    rw [findId_map hid]
    rw [show findId db.certs cid = none from hnone]
    rfl
  · intro cid c hf ht
    have hcid : cid < db.nextCertId := by
      obtain ⟨hmem, hid'⟩ := findId_some_props hf
      rw [← hid']; exact hbound c hmem
    right
    refine ⟨g c, ?_, hterm c ht⟩
    show findId db'.certs cid = some (g c)
    rw [hcerts, findId_cons, if_neg (by rw [hfid]; exact Nat.ne_of_gt hcid)]
    rw [findId_map hid]
    rw [show findId db.certs cid = some c from hf]
    rfl

theorem Evol_filter {db db' : Db} {delId : Nat}
    (hcerts : db'.certs = db.certs.filter (fun c => !decide (c.id = delId)))
    (hnext : db'.nextCertId = db.nextCertId) : db.Evol db' := by
  refine ⟨le_of_eq hnext.symm, ?_, ?_⟩
  · intro cid _ hnone
    show findId db'.certs cid = none
    rw [hcerts]
    by_cases h : cid = delId
    · rw [h]; exact findId_filter_self delId db.certs
    · rw [findId_filter_ne delId cid h]
      exact hnone
  · intro cid c hf ht
    rw [show (Db.findCert db' cid) = findId db'.certs cid from rfl, hcerts]
    by_cases h : cid = delId
    · left; rw [h]; exact findId_filter_self delId db.certs
    · right
      refine ⟨c, ?_, ht⟩
      rw [findId_filter_ne delId cid h]
      exact hf

/-! ### Characterizations of `persist` -/

theorem persist_head {db : Db} {primary : String} {proxy : ProxyRow} {c0 : CertRow}
    {rest : List CertRow} (info : CertificateInfo)
    (hfind : db.proxies.find? (fun q => decide (q.domain = primary)) = some proxy)
    (hcert : db.certs = c0 :: rest)
    (hc0 : c0.proxyId = proxy.id)
    (hids : ∀ c ∈ rest, c.id ≠ c0.id) :
    (CertbotService.persist db primary info).certs =
      { c0 with status := info.status, expiresAt := info.expires_at } :: rest ∧
    (CertbotService.persist db primary info).nextCertId = db.nextCertId ∧
    (CertbotService.persist db primary info).proxies = db.proxies := by
  have hfc : db.certs.find? (fun c => decide (c.proxyId = proxy.id)) = some c0 := by
    rw [hcert]; exact List.find?_cons_of_pos _ (by simp [hc0])
  rw [persist_eq_update info hfind hfc]
  refine ⟨?_, ?_, ?_⟩
  · rw [persistSans_certs]
    show (db.certs.map (updRow c0.id info.status info.expires_at)) = _
    rw [hcert, List.map_cons, map_updRow_of_ne _ _ _ rest hids]
    congr 1
    unfold updRow
    rw [if_pos rfl]
  · rw [persistSans_nextCertId]
    rfl
  · rw [persistSans_proxies]
    rfl

theorem persist_WF {db : Db} (primary : String) (info : CertificateInfo)
    (hWF : db.WF) : (CertbotService.persist db primary info).WF := by
  rcases hfp : db.proxies.find? (fun p => decide (p.domain = primary)) with _ | proxy
  · rw [persist_eq_no_proxy info hfp]; exact hWF
  · have hmem := List.mem_of_find?_eq_some hfp
    have hpd : proxy.domain = primary := by simpa using List.find?_some hfp
    rcases hfc : db.certs.find? (fun c => decide (c.proxyId = proxy.id)) with _ | existing
    · rw [persist_eq_insert info hfp hfc]
      refine WF_insert_shape hWF id (fun c => ⟨rfl, rfl, rfl⟩)
        proxy.id primary info.status info.expires_at ?_ ?_ ?_ ?_
      · rw [persistSans_certs, List.map_id]
        rfl
      · unfold proxyKeys
        rw [persistSans_proxies]
        rfl
      · rw [persistSans_nextCertId]
        rfl
      · exact proxy_domain_unique hWF hmem rfl hpd
    · rw [persist_eq_update info hfp hfc]
      refine WF_map_shape hWF
        (updRow existing.id info.status info.expires_at)
        (fun c => ⟨updRow_id _ _ _ c, updRow_proxyId _ _ _ c, updRow_domain _ _ _ c⟩)
        ?_ ?_ ?_
      · rw [persistSans_certs]
        rfl
      · rw [persistSans_proxies]
        rfl
      · rw [persistSans_nextCertId]
        rfl

theorem persist_Evol_of_terminal {db : Db} (primary : String) (info : CertificateInfo)
    (hterm : isTerminal info.status = true)
    (hbound : ∀ c ∈ db.certs, c.id < db.nextCertId) :
    db.Evol (CertbotService.persist db primary info) := by
  rcases hfp : db.proxies.find? (fun p => decide (p.domain = primary)) with _ | proxy
  · rw [persist_eq_no_proxy info hfp]; exact Evol_refl db
  · rcases hfc : db.certs.find? (fun c => decide (c.proxyId = proxy.id)) with _ | existing
    · rw [persist_eq_insert info hfp hfc]
      have hcerts : (CertbotService.persistSans
          (db.insertCert proxy.id primary info.status info.expires_at).1
          proxy.id db.nextCertId info.domains).certs =
          (⟨db.nextCertId, proxy.id, primary, info.status, info.expires_at⟩ : CertRow)
            :: db.certs.map id := by
        rw [persistSans_certs, List.map_id]
        rfl
      exact Evol_insert_shape id hbound (fun c => rfl) (fun c h => h) hcerts rfl
        (by rw [persistSans_nextCertId]; rfl)
    · rw [persist_eq_update info hfp hfc]
      refine Evol_map_shape (updRow existing.id info.status info.expires_at)
        (updRow_id _ _ _) ?_ ?_ ?_
      · intro c hc
        unfold updRow
        split
        · exact hterm
        · exact hc
      · rw [persistSans_certs]
        rfl
      · rw [persistSans_nextCertId]
        rfl

/-! ### Updates that hit a freshly inserted head row -/

theorem setCert_head {f : CertRow} {rest : List CertRow} (db : Db) (st : CertStatus)
    (hcerts : db.certs = f :: rest) (hids : ∀ c ∈ rest, c.id ≠ f.id) :
    (db.setCertStatus f.id st).certs = { f with status := st } :: rest := by
  show (db.certs.map (updStatusRow f.id st)) = _
  rw [hcerts, List.map_cons, map_updStatusRow_of_ne _ _ rest hids]
  congr 1
  unfold updStatusRow
  rw [if_pos rfl]

theorem updateCert_head {f : CertRow} {rest : List CertRow} (db : Db)
    (st : CertStatus) (e : Option Int)
    (hcerts : db.certs = f :: rest) (hids : ∀ c ∈ rest, c.id ≠ f.id) :
    (db.updateCert f.id st e).certs = { f with status := st, expiresAt := e } :: rest := by
  show (db.certs.map (updRow f.id st e)) = _
  rw [hcerts, List.map_cons, map_updRow_of_ne _ _ _ rest hids]
  congr 1
  unfold updRow
  rw [if_pos rfl]

theorem enableProxySsl_props (db : Db) (dom : String) :
    (db.enableProxySsl dom).certs = db.certs ∧
    (db.enableProxySsl dom).nextCertId = db.nextCertId ∧
    (db.enableProxySsl dom).logs = db.logs ∧
    proxyKeys (db.enableProxySsl dom) = proxyKeys db ∧
    ∀ d, (db.enableProxySsl dom).proxies.find? (fun q => decide (q.domain = d)) =
      (db.proxies.find? (fun q => decide (q.domain = d))).map
        (fun p => if p.domain = dom then { p with sslEnabled := true } else p) := by
  unfold Db.enableProxySsl proxyKeys
  refine ⟨rfl, rfl, rfl, ?_, ?_⟩
  · show (db.proxies.map _).map _ = _
    rw [List.map_map]
    apply List.map_congr_left
    intro p _
    show (fun p => (p.id, p.domain))
      (if p.domain = dom then { p with sslEnabled := true } else p) = _
    split <;> rfl
  · intro d
    show (db.proxies.map _).find? _ = _
    rw [List.find?_map]
    have hp : ((fun q : ProxyRow => decide (q.domain = d)) ∘
        (fun p => if p.domain = dom then { p with sslEnabled := true } else p)) =
        (fun q : ProxyRow => decide (q.domain = d)) := by
      funext p
      show decide ((if p.domain = dom then { p with sslEnabled := true } else p).domain = d)
        = decide (p.domain = d)
      split <;> rfl
    rw [hp]

theorem enableRow_id (dom : String) (p : ProxyRow) :
    ((if p.domain = dom then { p with sslEnabled := true } else p) : ProxyRow).id = p.id := by
  split <;> rfl

/-! ### Projection lemmas for the database primitives -/

theorem setCertStatus_certs (db : Db) (cid : Nat) (st : CertStatus) :
    (db.setCertStatus cid st).certs = db.certs.map (updStatusRow cid st) := rfl

theorem setCertStatus_nextCertId (db : Db) (cid : Nat) (st : CertStatus) :
    (db.setCertStatus cid st).nextCertId = db.nextCertId := rfl

theorem setCertStatus_proxies (db : Db) (cid : Nat) (st : CertStatus) :
    (db.setCertStatus cid st).proxies = db.proxies := rfl

theorem setCertStatus_logs (db : Db) (cid : Nat) (st : CertStatus) :
    (db.setCertStatus cid st).logs = db.logs := rfl

theorem updateCert_nextCertId (db : Db) (cid : Nat) (st : CertStatus) (e : Option Int) :
    (db.updateCert cid st e).nextCertId = db.nextCertId := rfl

theorem updateCert_proxies (db : Db) (cid : Nat) (st : CertStatus) (e : Option Int) :
    (db.updateCert cid st e).proxies = db.proxies := rfl

theorem insertCert_fst_certs (db : Db) (pid : Nat) (dom : String) (st : CertStatus)
    (e : Option Int) :
    (db.insertCert pid dom st e).1.certs = ⟨db.nextCertId, pid, dom, st, e⟩ :: db.certs := rfl

theorem insertCert_fst_nextCertId (db : Db) (pid : Nat) (dom : String) (st : CertStatus)
    (e : Option Int) :
    (db.insertCert pid dom st e).1.nextCertId = db.nextCertId + 1 := rfl

theorem insertCert_fst_proxies (db : Db) (pid : Nat) (dom : String) (st : CertStatus)
    (e : Option Int) :
    (db.insertCert pid dom st e).1.proxies = db.proxies := rfl

theorem insertCert_snd (db : Db) (pid : Nat) (dom : String) (st : CertStatus)
    (e : Option Int) :
    (db.insertCert pid dom st e).2 = db.nextCertId := rfl

theorem enableProxySSL_certs (db : Db) (dom : String) :
    (CertbotService.enableProxySSL db dom).certs = db.certs := rfl

theorem enableProxySSL_nextCertId (db : Db) (dom : String) :
    (CertbotService.enableProxySSL db dom).nextCertId = db.nextCertId := rfl

theorem proxyKeys_eq_of_proxies_eq {db db' : Db} (h : db'.proxies = db.proxies) :
    proxyKeys db' = proxyKeys db := by
  unfold proxyKeys
  rw [h]

theorem proxyKeys_setCertStatus (db : Db) (cid : Nat) (st : CertStatus) :
    proxyKeys (db.setCertStatus cid st) = proxyKeys db := rfl

theorem proxyKeys_updateCert (db : Db) (cid : Nat) (st : CertStatus) (e : Option Int) :
    proxyKeys (db.updateCert cid st e) = proxyKeys db := rfl

theorem proxyKeys_insertCert (db : Db) (pid : Nat) (dom : String) (st : CertStatus)
    (e : Option Int) :
    proxyKeys (db.insertCert pid dom st e).1 = proxyKeys db := rfl

theorem proxyKeys_persist (db : Db) (primary : String) (info : CertificateInfo) :
    proxyKeys (CertbotService.persist db primary info) = proxyKeys db :=
  proxyKeys_eq_of_proxies_eq (persist_proxies db primary info)

theorem proxyKeys_enableProxySSL (db : Db) (dom : String) :
    proxyKeys (CertbotService.enableProxySSL db dom) = proxyKeys db :=
  (enableProxySsl_props db dom).2.2.2.1

/-! ### Shape of the request route's main body -/

/-- After the checks pass, `POST /api/ssl/request` appends exactly one
fresh row for the proxy (ending `valid` or `failed`), leaves every
pre-existing certificate row unchanged, bumps the id counter once,
leaves the proxy table's keys alone, and responds `ok` with status
"pending" and the fresh id. -/
theorem requestCore_shape (env : CaEnv) (now : Int) {db : Db} {pid : Nat}
    (extra : List String) {proxy : ProxyRow}
    (hWF : db.WF) (hmem : proxy ∈ db.proxies) (hpid : proxy.id = pid) :
    ∃ st e, (st = CertStatus.valid ∨ st = CertStatus.failed) ∧
      (SslRoutes.requestCore env now db pid extra proxy).1.certs =
        ⟨db.nextCertId, pid, proxy.domain, st, e⟩ :: db.certs ∧
      (SslRoutes.requestCore env now db pid extra proxy).1.nextCertId =
        db.nextCertId + 1 ∧
      proxyKeys (SslRoutes.requestCore env now db pid extra proxy).1 = proxyKeys db ∧
      (SslRoutes.requestCore env now db pid extra proxy).2 =
        Except.ok ⟨db.nextCertId, "pending", proxy.domain⟩ ∧
      (st = CertStatus.failed ∨
        (CertbotService.obtainCertificate env
          (db.insertCert pid proxy.domain CertStatus.pending
            (some (now + 90 * msPerDay))).1 proxy.domain extra).outcome ≠
          Except.error ()) := by
  have hids : ∀ c ∈ db.certs, c.id ≠ db.nextCertId :=
    fun c hc => Nat.ne_of_lt (hWF.2.2.2.1 c hc)
  unfold SslRoutes.requestCore
  dsimp only
  set db1 : Db :=
    (db.insertCert pid proxy.domain CertStatus.pending (some (now + 90 * msPerDay))).1
    with hdb1
  have hdb1c : db1.certs =
      (⟨db.nextCertId, pid, proxy.domain, CertStatus.pending,
        some (now + 90 * msPerDay)⟩ : CertRow) :: db.certs := rfl
  have hdb1n : db1.nextCertId = db.nextCertId + 1 := rfl
  have hdb1p : db1.proxies = db.proxies := rfl
  have hfind1 : db1.proxies.find? (fun q => decide (q.domain = proxy.domain)) = some proxy := by
    rw [hdb1p]
    exact find?_domain_of_nodup hWF.2.1 hmem proxy.domain rfl
  have hcid : (db.insertCert pid proxy.domain CertStatus.pending
      (some (now + 90 * msPerDay))).2 = db.nextCertId := rfl
  rw [hcid]
  by_cases h1 : env.certbotInstalled = false
  · rw [obtain_eq_setup_fail db1 proxy.domain extra (Or.inl h1)]
    exact ⟨.failed, some (now + 90 * msPerDay), Or.inr rfl,
      setCert_head db1 .failed hdb1c hids, rfl, rfl, rfl, Or.inl rfl⟩
  by_cases h2 : env.dirsOk = false
  · rw [obtain_eq_setup_fail db1 proxy.domain extra (Or.inr (Or.inl h2))]
    exact ⟨.failed, some (now + 90 * msPerDay), Or.inr rfl,
      setCert_head db1 .failed hdb1c hids, rfl, rfl, rfl, Or.inl rfl⟩
  by_cases h3 : env.acmeSetupOk = false
  · rw [obtain_eq_setup_fail db1 proxy.domain extra (Or.inr (Or.inr h3))]
    exact ⟨.failed, some (now + 90 * msPerDay), Or.inr rfl,
      setCert_head db1 .failed hdb1c hids, rfl, rfl, rfl, Or.inl rfl⟩
  have h1' : env.certbotInstalled = true := by simpa using h1
  have h2' : env.dirsOk = true := by simpa using h2
  have h3' : env.acmeSetupOk = true := by simpa using h3
  by_cases h4 : env.issuanceOk = false
  · rw [obtain_eq_issuance_fail db1 proxy.domain extra h1' h2' h3' h4]
    dsimp only
    have hp := persist_head
      (CertbotService.failedInfo proxy.domain
        (some (CertbotService.dedupDomains proxy.domain extra)))
      hfind1 hdb1c hpid.symm hids
    refine ⟨.failed, none, Or.inr rfl,
      setCert_head _ .failed hp.1 hids, ?_, ?_, rfl, Or.inl rfl⟩
    · rw [setCertStatus_nextCertId, hp.2.1, hdb1n]
    · rw [proxyKeys_setCertStatus, proxyKeys_persist, proxyKeys_insertCert]
  have h4' : env.issuanceOk = true := by simpa using h4
  by_cases h5 : (CertbotService.getCertificateInfo env proxy.domain
      (some (CertbotService.dedupDomains proxy.domain extra))).status = .valid
  · have hpA := persist_head
      (CertbotService.getCertificateInfo env proxy.domain
        (some (CertbotService.dedupDomains proxy.domain extra)))
      hfind1 hdb1c hpid.symm hids
    have heB := enableProxySsl_props
      (CertbotService.persist db1 proxy.domain
        (CertbotService.getCertificateInfo env proxy.domain
          (some (CertbotService.dedupDomains proxy.domain extra)))) proxy.domain
    have hBc : (CertbotService.enableProxySSL
        (CertbotService.persist db1 proxy.domain
          (CertbotService.getCertificateInfo env proxy.domain
            (some (CertbotService.dedupDomains proxy.domain extra)))) proxy.domain).certs =
        (⟨db.nextCertId, pid, proxy.domain,
          (CertbotService.getCertificateInfo env proxy.domain
            (some (CertbotService.dedupDomains proxy.domain extra))).status,
          (CertbotService.getCertificateInfo env proxy.domain
            (some (CertbotService.dedupDomains proxy.domain extra))).expires_at⟩ : CertRow)
          :: db.certs := by
      rw [enableProxySSL_certs, hpA.1]
    have hBn : (CertbotService.enableProxySSL
        (CertbotService.persist db1 proxy.domain
          (CertbotService.getCertificateInfo env proxy.domain
            (some (CertbotService.dedupDomains proxy.domain extra)))) proxy.domain).nextCertId =
        db.nextCertId + 1 := by
      rw [enableProxySSL_nextCertId, hpA.2.1, hdb1n]
    by_cases h6 : env.proxySyncOk = false
    · rw [obtain_eq_sync_fail db1 proxy.domain extra h1' h2' h3' h4' h5 h6]
      dsimp only
      have hfindB : (CertbotService.enableProxySSL
          (CertbotService.persist db1 proxy.domain
            (CertbotService.getCertificateInfo env proxy.domain
              (some (CertbotService.dedupDomains proxy.domain extra)))) proxy.domain).proxies.find?
          (fun q => decide (q.domain = proxy.domain)) =
          some (if proxy.domain = proxy.domain then { proxy with sslEnabled := true }
            else proxy) := by
        rw [show (CertbotService.enableProxySSL
          (CertbotService.persist db1 proxy.domain
            (CertbotService.getCertificateInfo env proxy.domain
              (some (CertbotService.dedupDomains proxy.domain extra)))) proxy.domain).proxies =
          ((CertbotService.persist db1 proxy.domain
            (CertbotService.getCertificateInfo env proxy.domain
              (some (CertbotService.dedupDomains proxy.domain extra)))).enableProxySsl
                proxy.domain).proxies from rfl]
        rw [heB.2.2.2.2 proxy.domain, hpA.2.2, hdb1p]
        rw [find?_domain_of_nodup hWF.2.1 hmem proxy.domain rfl]
        rfl
      have hpB := persist_head
        (CertbotService.failedInfo proxy.domain
          (some (CertbotService.dedupDomains proxy.domain extra)))
        hfindB hBc (by rw [enableRow_id]; exact hpid.symm) hids
      refine ⟨.failed, none, Or.inr rfl,
        setCert_head _ .failed hpB.1 hids, ?_, ?_, rfl, Or.inl rfl⟩
      · rw [setCertStatus_nextCertId, hpB.2.1, hBn]
      · rw [proxyKeys_setCertStatus, proxyKeys_persist, proxyKeys_enableProxySSL,
          proxyKeys_persist, proxyKeys_insertCert]
    · have h6' : env.proxySyncOk = true := by simpa using h6
      rw [obtain_eq_success db1 proxy.domain extra h1' h2' h3' h4' h5 h6']
      dsimp only
      rw [if_pos h5]
      refine ⟨.valid, some ((CertbotService.getCertificateInfo env proxy.domain
        (some (CertbotService.dedupDomains proxy.domain extra))).expires_at.getD
          (now + 90 * msPerDay)), Or.inl rfl,
        updateCert_head _ CertStatus.valid _ hBc hids, ?_, ?_, rfl, Or.inr (by simp)⟩
      · rw [updateCert_nextCertId, hBn]
      · rw [proxyKeys_updateCert, proxyKeys_enableProxySSL,
          proxyKeys_persist, proxyKeys_insertCert]
  · rw [obtain_eq_not_valid db1 proxy.domain extra h1' h2' h3' h4' h5]
    dsimp only
    have hp := persist_head
      (CertbotService.failedInfo proxy.domain
        (some (CertbotService.dedupDomains proxy.domain extra)))
      hfind1 hdb1c hpid.symm hids
    refine ⟨.failed, none, Or.inr rfl,
      setCert_head _ .failed hp.1 hids, ?_, ?_, rfl, Or.inl rfl⟩
    · rw [setCertStatus_nextCertId, hp.2.1, hdb1n]
    · rw [proxyKeys_setCertStatus, proxyKeys_persist, proxyKeys_insertCert]


/-! ### Shape of the renew route's main body and of a scheduler step -/

theorem appendLog_certs (db : Db) (dom : String) (st : RenewalLogStatus) :
    (db.appendLog dom st).certs = db.certs := rfl

theorem appendLog_nextCertId (db : Db) (dom : String) (st : RenewalLogStatus) :
    (db.appendLog dom st).nextCertId = db.nextCertId := rfl

theorem proxyKeys_appendLog (db : Db) (dom : String) (st : RenewalLogStatus) :
    proxyKeys (db.appendLog dom st) = proxyKeys db := rfl

/-- After the gate passes, `POST /api/ssl/renew` first transitions the
targeted (most recent) row to `expired`, then appends exactly one fresh
row for the proxy (ending `valid` or `failed`); no other row changes,
the id counter is bumped once, the proxy table's keys are untouched,
and the response is `ok` with status "pending" and the fresh id. -/
theorem renewCore_shape (env : CaEnv) (now : Int) {db : Db} {pid : Nat}
    {proxy : ProxyRow} (cert : CertRow)
    (hWF : db.WF) (hmem : proxy ∈ db.proxies) (hpid : proxy.id = pid) :
    ∃ st e, (st = CertStatus.valid ∨ st = CertStatus.failed) ∧
      (SslRoutes.renewCore env now db pid proxy cert).1.certs =
        ⟨db.nextCertId, pid, proxy.domain, st, e⟩
          :: db.certs.map (updStatusRow cert.id .expired) ∧
      (SslRoutes.renewCore env now db pid proxy cert).1.nextCertId =
        db.nextCertId + 1 ∧
      proxyKeys (SslRoutes.renewCore env now db pid proxy cert).1 = proxyKeys db ∧
      (SslRoutes.renewCore env now db pid proxy cert).2 =
        Except.ok ⟨db.nextCertId, "pending", proxy.domain⟩ := by
  have hids2 : ∀ c ∈ db.certs.map (updStatusRow cert.id .expired),
      c.id ≠ db.nextCertId := by
    intro c hc
    rcases List.mem_map.mp hc with ⟨c0, hc0, rfl⟩
    rw [updStatusRow_id]
    exact Nat.ne_of_lt (hWF.2.2.2.1 c0 hc0)
  unfold SslRoutes.renewCore
  dsimp only
  set dbi : Db := ((db.setCertStatus cert.id CertStatus.expired).insertCert pid
    proxy.domain CertStatus.pending (some (now + 90 * msPerDay))).1 with hdbi
  have hdbic : dbi.certs =
      (⟨db.nextCertId, pid, proxy.domain, CertStatus.pending,
        some (now + 90 * msPerDay)⟩ : CertRow)
      :: db.certs.map (updStatusRow cert.id .expired) := rfl
  have hdbin : dbi.nextCertId = db.nextCertId + 1 := rfl
  have hfind : dbi.proxies.find? (fun q => decide (q.domain = proxy.domain)) = some proxy := by
    rw [show dbi.proxies = db.proxies from rfl]
    exact find?_domain_of_nodup hWF.2.1 hmem proxy.domain rfl
  have hnid : ((db.setCertStatus cert.id CertStatus.expired).insertCert pid
      proxy.domain CertStatus.pending (some (now + 90 * msPerDay))).2 = db.nextCertId := rfl
  rw [hnid]
  by_cases h1 : env.renewExecOk = false
  · rw [renew_eq_exec_fail dbi proxy.domain h1]
    dsimp only
    exact ⟨.failed, some (now + 90 * msPerDay), Or.inr rfl,
      setCert_head dbi .failed hdbic hids2, rfl,
      by rw [proxyKeys_setCertStatus, proxyKeys_insertCert, proxyKeys_setCertStatus], rfl⟩
  · have h1p : env.renewExecOk = true := by simpa using h1
    have hp := persist_head (CertbotService.getCertificateInfo env proxy.domain none)
      hfind hdbic hpid.symm hids2
    by_cases h2 : (CertbotService.getCertificateInfo env proxy.domain none).status = .valid
    · by_cases h3 : env.reloadOk = false
      · rw [renew_eq_throw_reload dbi proxy.domain h1p h2 h3]
        dsimp only
        refine ⟨.failed,
          (CertbotService.getCertificateInfo env proxy.domain none).expires_at,
          Or.inr rfl, setCert_head _ .failed hp.1 hids2, ?_, ?_, rfl⟩
        · rw [setCertStatus_nextCertId, hp.2.1, hdbin]
        · rw [proxyKeys_setCertStatus, proxyKeys_persist, proxyKeys_insertCert,
            proxyKeys_setCertStatus]
      · have h3p : env.reloadOk = true := by simpa using h3
        rw [renew_eq_ok dbi proxy.domain h1p (by simp [h3p])]
        dsimp only
        rw [if_pos h2]
        refine ⟨.valid,
          (CertbotService.getCertificateInfo env proxy.domain none).expires_at,
          Or.inl rfl, ?_, ?_, ?_, rfl⟩
        · have hs := setCert_head _ CertStatus.valid hp.1 hids2
          exact hs
        · rw [setCertStatus_nextCertId, hp.2.1, hdbin]
        · rw [proxyKeys_setCertStatus, proxyKeys_persist, proxyKeys_insertCert,
            proxyKeys_setCertStatus]
    · rw [renew_eq_ok dbi proxy.domain h1p (by simp [h2])]
      dsimp only
      rw [if_neg h2]
      refine ⟨.failed,
        (CertbotService.getCertificateInfo env proxy.domain none).expires_at,
        Or.inr rfl, setCert_head _ .failed hp.1 hids2, ?_, ?_, rfl⟩
      · rw [setCertStatus_nextCertId, hp.2.1, hdbin]
      · rw [proxyKeys_setCertStatus, proxyKeys_persist, proxyKeys_insertCert,
          proxyKeys_setCertStatus]

/-- One scheduler renewal step: the candidate row is transitioned to
`expired`, exactly one fresh row for the candidate's proxy and domain
is appended (left `pending` when the attempt threw before persisting,
`valid` on success, `valid` or `failed` as persisted otherwise), no
other row changes, and the id counter is bumped once. -/
theorem schedStep_shape (env : CaEnv) (now : Int) {db : Db} (cert : CertRow)
    (hWF : db.WF)
    (hproxy : ∃ p ∈ db.proxies, p.id = cert.proxyId ∧ p.domain = cert.domain) :
    ∃ st e, (st = CertStatus.pending ∨ st = CertStatus.valid ∨ st = CertStatus.failed) ∧
      (RenewalScheduler.renewCertificate env now db cert).certs =
        ⟨db.nextCertId, cert.proxyId, cert.domain, st, e⟩
          :: db.certs.map (updStatusRow cert.id .expired) ∧
      (RenewalScheduler.renewCertificate env now db cert).nextCertId =
        db.nextCertId + 1 ∧
      proxyKeys (RenewalScheduler.renewCertificate env now db cert) = proxyKeys db := by
  rcases hproxy with ⟨p, hp, hpidc, hpdomc⟩
  have hids2 : ∀ c ∈ db.certs.map (updStatusRow cert.id .expired),
      c.id ≠ db.nextCertId := by
    intro c hc
    rcases List.mem_map.mp hc with ⟨c0, hc0, rfl⟩
    rw [updStatusRow_id]
    exact Nat.ne_of_lt (hWF.2.2.2.1 c0 hc0)
  unfold RenewalScheduler.renewCertificate
  dsimp only
  set dbi : Db := ((db.setCertStatus cert.id CertStatus.expired).insertCert cert.proxyId
    cert.domain CertStatus.pending (some (now + 90 * msPerDay))).1 with hdbi
  have hdbic : dbi.certs =
      (⟨db.nextCertId, cert.proxyId, cert.domain, CertStatus.pending,
        some (now + 90 * msPerDay)⟩ : CertRow)
      :: db.certs.map (updStatusRow cert.id .expired) := rfl
  have hdbin : dbi.nextCertId = db.nextCertId + 1 := rfl
  have hfind : dbi.proxies.find? (fun q => decide (q.domain = cert.domain)) = some p := by
    rw [show dbi.proxies = db.proxies from rfl]
    exact find?_domain_of_nodup hWF.2.1 hp cert.domain hpdomc
  have hnid : ((db.setCertStatus cert.id CertStatus.expired).insertCert cert.proxyId
      cert.domain CertStatus.pending (some (now + 90 * msPerDay))).2 = db.nextCertId := rfl
  rw [hnid]
  by_cases h1 : env.renewExecOk = false
  · rw [renew_eq_exec_fail dbi cert.domain h1]
    dsimp only
    exact ⟨.pending, some (now + 90 * msPerDay), Or.inl rfl,
      by rw [appendLog_certs]; exact hdbic,
      by rw [appendLog_nextCertId]; exact hdbin,
      by rw [proxyKeys_appendLog, proxyKeys_insertCert, proxyKeys_setCertStatus]⟩
  · have h1p : env.renewExecOk = true := by simpa using h1
    have hp2 := persist_head (CertbotService.getCertificateInfo env cert.domain none)
      hfind hdbic hpidc.symm hids2
    by_cases h2 : (CertbotService.getCertificateInfo env cert.domain none).status = .valid
    · by_cases h3 : env.reloadOk = false
      · rw [renew_eq_throw_reload dbi cert.domain h1p h2 h3]
        dsimp only
        refine ⟨.valid,
          (CertbotService.getCertificateInfo env cert.domain none).expires_at,
          Or.inr (Or.inl rfl), ?_, ?_, ?_⟩
        · rw [appendLog_certs, hp2.1, h2]
        · rw [appendLog_nextCertId, hp2.2.1, hdbin]
        · rw [proxyKeys_appendLog, proxyKeys_persist, proxyKeys_insertCert,
            proxyKeys_setCertStatus]
      · have h3p : env.reloadOk = true := by simpa using h3
        rw [renew_eq_ok dbi cert.domain h1p (by simp [h3p])]
        dsimp only
        rw [if_pos h2]
        refine ⟨.valid,
          (CertbotService.getCertificateInfo env cert.domain none).expires_at,
          Or.inr (Or.inl rfl), ?_, ?_, ?_⟩
        · rw [appendLog_certs]
          exact setCert_head _ CertStatus.valid hp2.1 hids2
        · rw [appendLog_nextCertId, setCertStatus_nextCertId, hp2.2.1, hdbin]
        · rw [proxyKeys_appendLog, proxyKeys_setCertStatus, proxyKeys_persist,
            proxyKeys_insertCert, proxyKeys_setCertStatus]
    · rw [renew_eq_ok dbi cert.domain h1p (by simp [h2])]
      dsimp only
      rw [if_neg h2]
      refine ⟨.failed,
        (CertbotService.getCertificateInfo env cert.domain none).expires_at,
        Or.inr (Or.inr rfl), ?_, ?_, ?_⟩
      · rw [appendLog_certs]
        exact setCert_head _ CertStatus.failed hp2.1 hids2
      · rw [appendLog_nextCertId, setCertStatus_nextCertId, hp2.2.1, hdbin]
      · rw [proxyKeys_appendLog, proxyKeys_setCertStatus, proxyKeys_persist,
          proxyKeys_insertCert, proxyKeys_setCertStatus]



/-! ### Lookup specifications and per-operation preservation -/

theorem findProxy_spec {db : Db} {uid pid : Nat} {proxy : ProxyRow}
    (h : db.findProxy uid pid = some proxy) :
    proxy ∈ db.proxies ∧ proxy.id = pid ∧ proxy.userId = uid := by
  refine ⟨List.mem_of_find?_eq_some h, ?_, ?_⟩ <;>
  · have := List.find?_some h
    simp at this
    tauto

theorem latestCert_mem {db : Db} {pid : Nat} {cert : CertRow}
    (h : db.latestCert pid = some cert) : cert ∈ db.certs ∧ cert.proxyId = pid := by
  refine ⟨List.mem_of_find?_eq_some h, ?_⟩
  have := List.find?_some h
  simpa using this

theorem latestActiveCert_spec {db : Db} {pid : Nat} {cert : CertRow}
    (h : db.latestActiveCert pid = some cert) :
    cert ∈ db.certs ∧ cert.proxyId = pid ∧
      (cert.status = .pending ∨ cert.status = .valid) := by
  refine ⟨List.mem_of_find?_eq_some h, ?_⟩
  have := List.find?_some h
  simp at this
  tauto

theorem findCertOfUser_spec {db : Db} {uid cid : Nat} {cert : CertRow}
    (h : db.findCertOfUser uid cid = some cert) :
    cert ∈ db.certs ∧ cert.id = cid := by
  refine ⟨List.mem_of_find?_eq_some h, ?_⟩
  have := List.find?_some h
  simp at this
  tauto

theorem findId_of_mem :
    ∀ {l : List CertRow}, (l.map (fun c => c.id)).Nodup →
      ∀ {c : CertRow}, c ∈ l → findId l c.id = some c
  | [], _, _, hc => absurd hc (List.not_mem_nil _)
  | r :: t, hnd, c, hc => by
    have hnd' : (r.id :: t.map (fun c => c.id)).Nodup := by simpa using hnd
    rcases List.mem_cons.mp hc with rfl | hc'
    · exact List.find?_cons_of_pos _ (by simp)
    · have hne : r.id ≠ c.id := by
        intro he
        exact (List.nodup_cons.mp hnd').1 (he ▸ List.mem_map.mpr ⟨c, hc', rfl⟩)
      rw [show findId (r :: t) c.id = List.find? (fun x => decide (x.id = c.id)) (r :: t)
        from rfl]
      rw [List.find?_cons_of_neg _ (by simp; exact hne)]
      exact findId_of_mem (List.nodup_cons.mp hnd').2 hc'

theorem updStatusRow_expired_terminal (cid : Nat) :
    ∀ c : CertRow, isTerminal c.status = true →
      isTerminal ((updStatusRow cid .expired) c).status = true := by
  intro c h
  unfold updStatusRow
  split
  · rfl
  · exact h

theorem requestCore_WF_Evol (env : CaEnv) (now : Int) {db : Db} {pid : Nat}
    (extra : List String) {proxy : ProxyRow}
    (hWF : db.WF) (hmem : proxy ∈ db.proxies) (hpid : proxy.id = pid) :
    (SslRoutes.requestCore env now db pid extra proxy).1.WF ∧
    db.Evol (SslRoutes.requestCore env now db pid extra proxy).1 ∧
    proxyKeys (SslRoutes.requestCore env now db pid extra proxy).1 = proxyKeys db := by
  obtain ⟨st, e, _, hcerts, hnext, hkeys, _, _⟩ :=
    requestCore_shape env now extra hWF hmem hpid
  have hcerts' : (SslRoutes.requestCore env now db pid extra proxy).1.certs =
      (⟨db.nextCertId, pid, proxy.domain, st, e⟩ : CertRow) :: db.certs.map id := by
    rw [hcerts, List.map_id]
  refine ⟨?_, ?_, hkeys⟩
  · exact WF_insert_shape hWF id (fun c => ⟨rfl, rfl, rfl⟩) pid proxy.domain st e
      hcerts' hkeys hnext (proxy_domain_unique hWF hmem hpid rfl)
  · exact Evol_insert_shape id hWF.2.2.2.1 (fun c => rfl) (fun c h => h)
      hcerts' rfl hnext

theorem renewCore_WF_Evol (env : CaEnv) (now : Int) {db : Db} {pid : Nat}
    {proxy : ProxyRow} (cert : CertRow)
    (hWF : db.WF) (hmem : proxy ∈ db.proxies) (hpid : proxy.id = pid) :
    (SslRoutes.renewCore env now db pid proxy cert).1.WF ∧
    db.Evol (SslRoutes.renewCore env now db pid proxy cert).1 ∧
    proxyKeys (SslRoutes.renewCore env now db pid proxy cert).1 = proxyKeys db := by
  obtain ⟨st, e, _, hcerts, hnext, hkeys, _⟩ :=
    renewCore_shape env now cert hWF hmem hpid
  refine ⟨?_, ?_, hkeys⟩
  · exact WF_insert_shape hWF (updStatusRow cert.id .expired)
      (fun c => ⟨updStatusRow_id _ _ c, updStatusRow_proxyId _ _ c, updStatusRow_domain _ _ c⟩)
      pid proxy.domain st e hcerts hkeys hnext
      (proxy_domain_unique hWF hmem hpid rfl)
  · exact Evol_insert_shape (updStatusRow cert.id .expired) hWF.2.2.2.1
      (updStatusRow_id _ _) (updStatusRow_expired_terminal _) hcerts rfl hnext

theorem schedStep_WF_Evol (env : CaEnv) (now : Int) {db : Db} (cert : CertRow)
    (hWF : db.WF)
    (hproxy : ∃ p ∈ db.proxies, p.id = cert.proxyId ∧ p.domain = cert.domain) :
    (RenewalScheduler.renewCertificate env now db cert).WF ∧
    db.Evol (RenewalScheduler.renewCertificate env now db cert) ∧
    proxyKeys (RenewalScheduler.renewCertificate env now db cert) = proxyKeys db := by
  obtain ⟨st, e, _, hcerts, hnext, hkeys⟩ := schedStep_shape env now cert hWF hproxy
  rcases hproxy with ⟨p, hp, hpid, hpdom⟩
  refine ⟨?_, ?_, hkeys⟩
  · exact WF_insert_shape hWF (updStatusRow cert.id .expired)
      (fun c => ⟨updStatusRow_id _ _ c, updStatusRow_proxyId _ _ c, updStatusRow_domain _ _ c⟩)
      cert.proxyId cert.domain st e hcerts hkeys hnext
      (proxy_domain_unique hWF hp hpid hpdom)
  · exact Evol_insert_shape (updStatusRow cert.id .expired) hWF.2.2.2.1
      (updStatusRow_id _ _) (updStatusRow_expired_terminal _) hcerts rfl hnext

theorem WF_deleteCascade {db : Db} (cid : Nat) (hWF : db.WF) :
    (db.deleteCertCascade cid).WF := by
  obtain ⟨h1, h2, h3, h4, h5⟩ := hWF
  refine ⟨h1, h2, ?_, ?_, ?_⟩
  · exact ((List.filter_sublist db.certs).map (fun c => c.id)).nodup h3
  · intro c hc
    exact h4 c (List.mem_of_mem_filter hc)
  · intro c hc p hp hpc
    exact h5 c (List.mem_of_mem_filter hc) p hp hpc

theorem WF_setCertStatus {db : Db} (cid : Nat) (st : CertStatus) (hWF : db.WF) :
    (db.setCertStatus cid st).WF :=
  WF_map_shape hWF (updStatusRow cid st)
    (fun c => ⟨updStatusRow_id _ _ c, updStatusRow_proxyId _ _ c, updStatusRow_domain _ _ c⟩)
    rfl rfl rfl

theorem Evol_setCertStatus_terminal {db : Db} (cid : Nat) (st : CertStatus)
    (hst : isTerminal st = true) : db.Evol (db.setCertStatus cid st) := by
  refine Evol_map_shape (updStatusRow cid st) (updStatusRow_id _ _) ?_ rfl rfl
  intro c h
  unfold updStatusRow
  split
  · exact hst
  · exact h


/-! ### Branch equations for `CertbotService.revoke` -/

theorem revoke_eq_no_file {env : CaEnv} (db : Db) (primary : String)
    (h : env.certFileExists = false) :
    CertbotService.revoke env db primary = (db, .ok ()) := by
  unfold CertbotService.revoke
  simp [h]

theorem revoke_eq_exec_fail {env : CaEnv} (db : Db) (primary : String)
    (hf : env.certFileExists = true) (hr : env.revokeExecOk = false) :
    CertbotService.revoke env db primary = (db, .error ()) := by
  unfold CertbotService.revoke
  simp [hf, hr]

theorem revoke_eq_ok {env : CaEnv} (db : Db) (primary : String)
    (hf : env.certFileExists = true) (hr : env.revokeExecOk = true) :
    CertbotService.revoke env db primary =
      (CertbotService.persist db primary (CertbotService.failedInfo primary none),
        .ok ()) := by
  unfold CertbotService.revoke
  simp [hf, hr]

theorem proxyKeys_deleteCascade (db : Db) (cid : Nat) :
    proxyKeys (db.deleteCertCascade cid) = proxyKeys db := rfl

/-! ### Scheduler pass preservation -/

theorem mem_insertByExpiry (x y : CertRow) :
    ∀ l : List CertRow, (y ∈ RenewalScheduler.insertByExpiry x l ↔ y = x ∨ y ∈ l)
  | [] => by simp [RenewalScheduler.insertByExpiry]
  | z :: t => by
    unfold RenewalScheduler.insertByExpiry
    split
    · simp
    · rw [List.mem_cons, mem_insertByExpiry x y t]
      simp [List.mem_cons]
      tauto

theorem mem_sortByExpiry (y : CertRow) :
    ∀ l : List CertRow, (y ∈ RenewalScheduler.sortByExpiry l ↔ y ∈ l)
  | [] => Iff.rfl
  | x :: t => by
    unfold RenewalScheduler.sortByExpiry
    rw [mem_insertByExpiry x y (RenewalScheduler.sortByExpiry t),
      mem_sortByExpiry y t, List.mem_cons]

theorem schedulerCandidates_spec (db : Db) (now : Int) (hWF : db.WF) :
    ∀ c ∈ RenewalScheduler.schedulerCandidates db now,
      c ∈ db.certs ∧ c.status = .valid ∧
        ∃ p ∈ db.proxies, p.id = c.proxyId ∧ p.domain = c.domain := by
  intro c hc
  unfold RenewalScheduler.schedulerCandidates at hc
  rw [mem_sortByExpiry] at hc
  obtain ⟨hcm, hpred⟩ := List.mem_filter.mp hc
  simp only [Bool.and_eq_true, decide_eq_true_eq, List.any_eq_true] at hpred
  obtain ⟨⟨hst, _⟩, p, hp, hpid⟩ := hpred
  exact ⟨hcm, hst, p, hp, hpid, (hWF.2.2.2.2 c hcm p hp hpid).symm ▸ rfl⟩

theorem schedLoop_WF_Evol (envs : Nat → CaEnv) (now : Int) :
    ∀ (cands : List CertRow) (i : Nat) (db : Db), db.WF →
      (∀ c ∈ cands, ∃ p ∈ db.proxies, p.id = c.proxyId ∧ p.domain = c.domain) →
      (RenewalScheduler.schedulerLoop envs now i db cands).WF ∧
      db.Evol (RenewalScheduler.schedulerLoop envs now i db cands) ∧
      proxyKeys (RenewalScheduler.schedulerLoop envs now i db cands) = proxyKeys db
  | [], i, db, hWF, _ => ⟨hWF, Evol_refl db, rfl⟩
  | c0 :: rest, i, db, hWF, hpx => by
    have hstep := schedStep_WF_Evol (envs i) now c0 hWF (hpx c0 (List.mem_cons_self _ _))
    have hpx2 : ∀ c ∈ rest,
        ∃ p ∈ (RenewalScheduler.renewCertificate (envs i) now db c0).proxies,
          p.id = c.proxyId ∧ p.domain = c.domain := by
      intro c hc
      rcases hpx c (List.mem_cons_of_mem _ hc) with ⟨p, hp, h1, h2⟩
      rcases keys_transfer hstep.2.2.symm p hp with ⟨q, hq, hqid, hqdom⟩
      exact ⟨q, hq, by rw [hqid]; exact h1, by rw [hqdom]; exact h2⟩
    have ih := schedLoop_WF_Evol envs now rest (i + 1)
      (RenewalScheduler.renewCertificate (envs i) now db c0) hstep.1 hpx2
    refine ⟨ih.1, Evol_trans hWF.2.2.2.1 hstep.2.1 ih.2.1, ?_⟩
    rw [show RenewalScheduler.schedulerLoop envs now i db (c0 :: rest) =
      RenewalScheduler.schedulerLoop envs now (i + 1)
        (RenewalScheduler.renewCertificate (envs i) now db c0) rest from rfl]
    rw [ih.2.2, hstep.2.2]

/-! ### Per-operation and per-sequence preservation -/

theorem applyOp_WF_Evol : ∀ (op : Op) (db : Db), db.WF →
    (applyOp db op).WF ∧ db.Evol (applyOp db op) ∧
      proxyKeys (applyOp db op) = proxyKeys db := by
  intro op db hWF
  cases op with
  | request env now uid pid extra =>
    show (SslRoutes.requestCertificate env now db uid pid extra).1.WF ∧
      db.Evol (SslRoutes.requestCertificate env now db uid pid extra).1 ∧
      proxyKeys (SslRoutes.requestCertificate env now db uid pid extra).1 = proxyKeys db
    unfold SslRoutes.requestCertificate
    rcases hfp : db.findProxy uid pid with _ | proxy
    · simp only [hfp]
      exact ⟨hWF, Evol_refl db, by trivial⟩
    · simp only [hfp]
      obtain ⟨hmem, hpid, _⟩ := findProxy_spec hfp
      rcases hla : db.latestActiveCert pid with _ | cert
      · simp only [hla]
        exact requestCore_WF_Evol env now extra hWF hmem hpid
      · simp only [hla]
        split_ifs with h1 h2
        · exact ⟨hWF, Evol_refl db, by trivial⟩
        · exact ⟨hWF, Evol_refl db, by trivial⟩
        · exact requestCore_WF_Evol env now extra hWF hmem hpid
  | renew env now uid pid =>
    show (SslRoutes.renewCertificate env now db uid pid).1.WF ∧
      db.Evol (SslRoutes.renewCertificate env now db uid pid).1 ∧
      proxyKeys (SslRoutes.renewCertificate env now db uid pid).1 = proxyKeys db
    unfold SslRoutes.renewCertificate
    rcases hfp : db.findProxy uid pid with _ | proxy
    · simp only [hfp]
      exact ⟨hWF, Evol_refl db, by trivial⟩
    · simp only [hfp]
      obtain ⟨hmem, hpid, _⟩ := findProxy_spec hfp
      rcases hlc : db.latestCert pid with _ | cert
      · simp only [hlc]
        exact ⟨hWF, Evol_refl db, by trivial⟩
      · simp only [hlc]
        split_ifs with h1
        · exact ⟨hWF, Evol_refl db, by trivial⟩
        · exact renewCore_WF_Evol env now cert hWF hmem hpid
  | revoke env uid cid =>
    show (SslRoutes.revokeCertificate env db uid cid).1.WF ∧
      db.Evol (SslRoutes.revokeCertificate env db uid cid).1 ∧
      proxyKeys (SslRoutes.revokeCertificate env db uid cid).1 = proxyKeys db
    unfold SslRoutes.revokeCertificate
    rcases hfc : db.findCertOfUser uid cid with _ | cert
    · simp only [hfc]
      exact ⟨hWF, Evol_refl db, by trivial⟩
    · simp only [hfc]
      split_ifs with hv
      · by_cases hf : env.certFileExists = false
        · rw [revoke_eq_no_file db cert.domain hf]
          exact ⟨WF_setCertStatus cid .revoked hWF,
            Evol_setCertStatus_terminal cid .revoked rfl, rfl⟩
        · have hfp2 : env.certFileExists = true := by simpa using hf
          by_cases hr : env.revokeExecOk = false
          · rw [revoke_eq_exec_fail db cert.domain hfp2 hr]
            exact ⟨hWF, Evol_refl db, by trivial⟩
          · have hrp : env.revokeExecOk = true := by simpa using hr
            rw [revoke_eq_ok db cert.domain hfp2 hrp]
            refine ⟨WF_setCertStatus cid .revoked
              (persist_WF cert.domain _ hWF), ?_, ?_⟩
            · exact Evol_trans hWF.2.2.2.1
                (persist_Evol_of_terminal cert.domain
                  (CertbotService.failedInfo cert.domain none) rfl hWF.2.2.2.1)
                (Evol_setCertStatus_terminal cid .revoked rfl)
            · rw [proxyKeys_setCertStatus, proxyKeys_persist]
      · exact ⟨hWF, Evol_refl db, by trivial⟩
  | deleteCert env uid cid =>
    show (SslRoutes.deleteCertificate env db uid cid).1.WF ∧
      db.Evol (SslRoutes.deleteCertificate env db uid cid).1 ∧
      proxyKeys (SslRoutes.deleteCertificate env db uid cid).1 = proxyKeys db
    unfold SslRoutes.deleteCertificate
    rcases hfc : db.findCertOfUser uid cid with _ | cert
    · simp only [hfc]
      exact ⟨hWF, Evol_refl db, by trivial⟩
    · simp only [hfc]
      have hone : ∀ db1 : Db, db1.WF → db.Evol db1 → proxyKeys db1 = proxyKeys db →
          (db1.deleteCertCascade cid).WF ∧ db.Evol (db1.deleteCertCascade cid) ∧
          proxyKeys (db1.deleteCertCascade cid) = proxyKeys db := by
        intro db1 hWF1 hEv1 hk1
        refine ⟨WF_deleteCascade cid hWF1, ?_, by rw [proxyKeys_deleteCascade, hk1]⟩
        exact Evol_trans hWF.2.2.2.1 hEv1 (Evol_filter rfl rfl)
      split_ifs with hv
      · by_cases hf : env.certFileExists = false
        · rw [revoke_eq_no_file db cert.domain hf]
          exact hone db hWF (Evol_refl db) rfl
        · have hfp2 : env.certFileExists = true := by simpa using hf
          by_cases hr : env.revokeExecOk = false
          · rw [revoke_eq_exec_fail db cert.domain hfp2 hr]
            exact hone db hWF (Evol_refl db) rfl
          · have hrp : env.revokeExecOk = true := by simpa using hr
            rw [revoke_eq_ok db cert.domain hfp2 hrp]
            exact hone _ (persist_WF cert.domain _ hWF)
              (persist_Evol_of_terminal cert.domain
                (CertbotService.failedInfo cert.domain none) rfl hWF.2.2.2.1)
              (proxyKeys_persist db cert.domain _)
      · exact hone db hWF (Evol_refl db) rfl
  | schedulerPass envs now =>
    show (RenewalScheduler.checkAndRenewCertificates envs now db).WF ∧
      db.Evol (RenewalScheduler.checkAndRenewCertificates envs now db) ∧
      proxyKeys (RenewalScheduler.checkAndRenewCertificates envs now db) = proxyKeys db
    unfold RenewalScheduler.checkAndRenewCertificates
    exact schedLoop_WF_Evol envs now (RenewalScheduler.schedulerCandidates db now) 0 db hWF
      (fun c hc => (schedulerCandidates_spec db now hWF c hc).2.2)

theorem applyOps_WF_Evol : ∀ (ops : List Op) (db : Db), db.WF →
    (applyOps db ops).WF ∧ db.Evol (applyOps db ops)
  | [], db, hWF => ⟨hWF, Evol_refl db⟩
  | op :: rest, db, hWF => by
    have hstep := applyOp_WF_Evol op db hWF
    have ih := applyOps_WF_Evol rest (applyOp db op) hstep.1
    rw [show applyOps db (op :: rest) = applyOps (applyOp db op) rest from rfl]
    exact ⟨ih.1, Evol_trans hWF.2.2.2.1 hstep.2.1 ih.2⟩


/-! ### Terminal statuses under arbitrary operation sequences (C2) -/

/-- C2 (amended): once a certificate row's status is in the terminal set
{`expired`, `failed`, `revoked`}, no sequence of public certificate
operations ever moves it back to `pending` or `valid`; the row keeps a
terminal status until (possibly) deleted.  (The statuses are not
individually terminal — see the counterexample: `renewCertificate`
transitions the proxy's most recent row to `expired` whatever its
status, so `failed` and `revoked` rows can become `expired`, and the CA
client's persistence can rewrite the most recent row to `failed`.) -/
theorem terminal_status_no_revival (db : Db) (ops : List Op) (cid : Nat)
    (c c' : CertRow) (hWF : db.WF) (hc : db.findCert cid = some c)
    (ht : isTerminal c.status = true)
    (hc' : (applyOps db ops).findCert cid = some c') :
    isTerminal c'.status = true := by
  obtain ⟨_, hEv⟩ := applyOps_WF_Evol ops db hWF
  rcases hEv.2.2 cid c hc ht with hn | ⟨c2, hc2, ht2⟩
  · rw [hn] at hc'
    cases hc'
  · rw [hc2] at hc'
    cases hc'
    exact ht2

/-- Witness for C2 (amended) on a concrete run: a `revoked` row put
through a failing renewal is still terminal afterwards. -/
theorem terminal_status_no_revival_witness : isTerminal CertStatus.expired = true :=
  terminal_status_no_revival dbOneRevoked [Op.renew envRenewFails 0 1 1] 1
    ⟨1, 1, "app.example.com", .revoked, some (10 * msPerDay)⟩
    ⟨1, 1, "app.example.com", .expired, some (10 * msPerDay)⟩
    (by unfold Db.WF; decide) (by decide) (by decide) (by decide)

/-- Counterexample to C2 as stated: `renewCertificate` on a proxy whose
most recent certificate row is `failed` transitions that row to
`expired` — a status change out of `failed`, which the claim says is
terminal for the row. -/
theorem renew_reverts_failed_to_expired_cex :
    dbOneFailed.findCert 1 =
      some ⟨1, 1, "app.example.com", .failed, some (10 * msPerDay)⟩ ∧
    (applyOp dbOneFailed (Op.renew envRenewFails 0 1 1)).findCert 1 =
      some ⟨1, 1, "app.example.com", .expired, some (10 * msPerDay)⟩ := by
  constructor <;> rfl

/-! ### Candidate rows end up expired after a scheduler pass (for C1) -/

theorem hpx_transfer {db db2 : Db} (hkeys : proxyKeys db2 = proxyKeys db)
    {cands : List CertRow}
    (hpx : ∀ c ∈ cands, ∃ p ∈ db.proxies, p.id = c.proxyId ∧ p.domain = c.domain) :
    ∀ c ∈ cands, ∃ p ∈ db2.proxies, p.id = c.proxyId ∧ p.domain = c.domain := by
  intro c hc
  rcases hpx c hc with ⟨p, hp, h1, h2⟩
  rcases keys_transfer hkeys.symm p hp with ⟨q, hq, hqid, hqdom⟩
  exact ⟨q, hq, by rw [hqid]; exact h1, by rw [hqdom]; exact h2⟩

theorem schedStep_expires_id (env : CaEnv) (now : Int) {db : Db} (cert : CertRow)
    (hWF : db.WF)
    (hproxy : ∃ p ∈ db.proxies, p.id = cert.proxyId ∧ p.domain = cert.domain)
    {r : CertRow} (hr : db.findCert cert.id = some r) :
    ∃ c', (RenewalScheduler.renewCertificate env now db cert).findCert cert.id = some c' ∧
      c'.status = .expired := by
  obtain ⟨st, e, _, hcerts, _, _⟩ := schedStep_shape env now cert hWF hproxy
  obtain ⟨hrm, hrid⟩ := findId_some_props hr
  have hlt : cert.id < db.nextCertId := by
    rw [← hrid]
    exact hWF.2.2.2.1 r hrm
  refine ⟨updStatusRow cert.id .expired r, ?_, ?_⟩
  · show findId _ cert.id = _
    rw [hcerts, findId_cons, if_neg (fun h2 => Nat.ne_of_lt hlt h2.symm)]
    rw [findId_map (updStatusRow_id _ _)]
    rw [show findId db.certs cert.id = some r from hr]
    rfl
  · unfold updStatusRow
    rw [if_pos hrid]

theorem schedLoop_keeps_expired (envs : Nat → CaEnv) (now : Int) :
    ∀ (cands : List CertRow) (i : Nat) (db : Db), db.WF →
      (∀ c ∈ cands, ∃ p ∈ db.proxies, p.id = c.proxyId ∧ p.domain = c.domain) →
      ∀ (cid : Nat) (c : CertRow), db.findCert cid = some c → c.status = .expired →
        ∃ c', (RenewalScheduler.schedulerLoop envs now i db cands).findCert cid = some c' ∧
          c'.status = .expired
  | [], _, db, _, _, cid, c, hc, he => ⟨c, hc, he⟩
  | c0 :: rest, i, db, hWF, hpx, cid, c, hc, he => by
    obtain ⟨st, e, _, hcerts, _, _⟩ :=
      schedStep_shape (envs i) now c0 hWF (hpx c0 (List.mem_cons_self _ _))
    have hWE := schedStep_WF_Evol (envs i) now c0 hWF (hpx c0 (List.mem_cons_self _ _))
    have hcid : cid < db.nextCertId := by
      obtain ⟨hm, hi⟩ := findId_some_props hc
      rw [← hi]
      exact hWF.2.2.2.1 c hm
    have hstep : (RenewalScheduler.renewCertificate (envs i) now db c0).findCert cid =
        some (updStatusRow c0.id .expired c) := by
      show findId _ cid = _
      rw [hcerts, findId_cons, if_neg (fun h2 => Nat.ne_of_lt hcid h2.symm)]
      rw [findId_map (updStatusRow_id _ _)]
      rw [show findId db.certs cid = some c from hc]
      rfl
    have he2 : (updStatusRow c0.id .expired c).status = .expired := by
      unfold updStatusRow
      split
      · rfl
      · exact he
    exact schedLoop_keeps_expired envs now rest (i + 1) _ hWE.1
      (hpx_transfer hWE.2.2 (fun x hx => hpx x (List.mem_cons_of_mem _ hx)))
      cid _ hstep he2

theorem schedLoop_expires (envs : Nat → CaEnv) (now : Int) :
    ∀ (cands : List CertRow) (i : Nat) (db : Db), db.WF →
      (∀ c ∈ cands, ∃ p ∈ db.proxies, p.id = c.proxyId ∧ p.domain = c.domain) →
      (∀ c ∈ cands, ∃ r, db.findCert c.id = some r) →
      ∀ c ∈ cands,
        ∃ c', (RenewalScheduler.schedulerLoop envs now i db cands).findCert c.id = some c' ∧
          c'.status = .expired
  | [], _, _, _, _, _, c, hcm => absurd hcm (List.not_mem_nil c)
  | c0 :: rest, i, db, hWF, hpx, hex, c, hcm => by
    have hWE := schedStep_WF_Evol (envs i) now c0 hWF (hpx c0 (List.mem_cons_self _ _))
    have hpx2 := hpx_transfer hWE.2.2 (fun x hx => hpx x (List.mem_cons_of_mem _ hx))
    have hkeep : ∀ (cid : Nat) (r : CertRow),
        (RenewalScheduler.renewCertificate (envs i) now db c0).findCert cid = some r →
        r.status = .expired →
        ∃ c', (RenewalScheduler.schedulerLoop envs now (i + 1)
          (RenewalScheduler.renewCertificate (envs i) now db c0) rest).findCert cid =
            some c' ∧ c'.status = .expired :=
      fun cid r hr he => schedLoop_keeps_expired envs now rest (i + 1) _ hWE.1 hpx2 cid r hr he
    rcases List.mem_cons.mp hcm with rfl | hc2
    · obtain ⟨r, hr⟩ := hex c (List.mem_cons_self _ _)
      obtain ⟨c1, hc1, he1⟩ := schedStep_expires_id (envs i) now c hWF
        (hpx c (List.mem_cons_self _ _)) hr
      exact hkeep c.id c1 hc1 he1
    · by_cases hid : c.id = c0.id
      · obtain ⟨r, hr⟩ := hex c0 (List.mem_cons_self _ _)
        obtain ⟨c1, hc1, he1⟩ := schedStep_expires_id (envs i) now c0 hWF
          (hpx c0 (List.mem_cons_self _ _)) hr
        rw [hid]
        exact hkeep c0.id c1 hc1 he1
      · have hex2 : ∀ x ∈ rest, ∃ r2,
            (RenewalScheduler.renewCertificate (envs i) now db c0).findCert x.id = some r2 := by
          intro x hx
          obtain ⟨r2, hr2⟩ := hex x (List.mem_cons_of_mem _ hx)
          have hlt : x.id < db.nextCertId := by
            obtain ⟨hm, hi⟩ := findId_some_props hr2
            rw [← hi]
            exact hWF.2.2.2.1 r2 hm
          obtain ⟨st, e, _, hcerts, _, _⟩ :=
            schedStep_shape (envs i) now c0 hWF (hpx c0 (List.mem_cons_self _ _))
          refine ⟨updStatusRow c0.id .expired r2, ?_⟩
          show findId _ x.id = _
          rw [hcerts, findId_cons, if_neg (fun h2 => Nat.ne_of_lt hlt h2.symm)]
          rw [findId_map (updStatusRow_id _ _)]
          rw [show findId db.certs x.id = some r2 from hr2]
          rfl
        exact schedLoop_expires envs now rest (i + 1) _ hWE.1 hpx2 hex2 c hc2


/-! ### One active certificate per proxy (C1) -/

/-- C1 (amended): before `requestCertificate` inserts a new `pending`
row, there is no active `pending` row for the proxy and any still-valid
row is within the 30-day renewal window; but a still-`valid` row inside
the window is NOT transitioned out first, so two rows with status in
{`pending`,`valid`} can coexist for one proxy (see the counterexample).
`renewCertificate` and the scheduler pass transition ONLY the targeted
most-recent (respectively candidate) row to `expired` while inserting
the new row; any older active row of the proxy is left untouched, so
they do not restore or preserve at-most-one-active either (second part
of the counterexample). -/
theorem active_certificate_uniqueness_amended (env : CaEnv) (envs : Nat → CaEnv)
    (now : Int) (db : Db) (uid pid : Nat) (extra : List String) (hWF : db.WF) :
    (∀ r, (SslRoutes.requestCertificate env now db uid pid extra).2 = .ok r →
      db.latestActiveCert pid = none ∨
        ∃ c, db.latestActiveCert pid = some c ∧ c.status = .valid ∧
          daysGT30 now c.expiresAt = false) ∧
    (∀ proxy cert, db.findProxy uid pid = some proxy → db.latestCert pid = some cert →
      ¬(daysGT30 now cert.expiresAt = true ∧ cert.status = .valid) →
      ((SslRoutes.renewCertificate env now db uid pid).1).findCert cert.id =
          some { cert with status := CertStatus.expired } ∧
        ((SslRoutes.renewCertificate env now db uid pid).1).findCert db.nextCertId ≠ none) ∧
    (∀ c ∈ RenewalScheduler.schedulerCandidates db now,
      ∃ c', (RenewalScheduler.checkAndRenewCertificates envs now db).findCert c.id =
          some c' ∧ c'.status = .expired) := by
  refine ⟨?_, ?_, ?_⟩
  · intro r hr
    unfold SslRoutes.requestCertificate at hr
    rcases hfp : db.findProxy uid pid with _ | proxy
    · simp only [hfp] at hr
      simp at hr
    · simp only [hfp] at hr
      rcases hla : db.latestActiveCert pid with _ | cert
      · exact Or.inl rfl
      · simp only [hla] at hr
        by_cases h1 : cert.status = .pending
        · rw [if_pos h1] at hr
          simp at hr
        · rw [if_neg h1] at hr
          by_cases h2 : daysGT30 now cert.expiresAt = true
          · rw [if_pos h2] at hr
            simp at hr
          · right
            refine ⟨cert, rfl, ?_, by simpa using h2⟩
            rcases (latestActiveCert_spec hla).2.2 with hp | hv
            · exact absurd hp h1
            · exact hv
  · intro proxy cert hfp hlc hpass
    obtain ⟨hmem, hpid, _⟩ := findProxy_spec hfp
    have heq : SslRoutes.renewCertificate env now db uid pid =
        SslRoutes.renewCore env now db pid proxy cert := by
      unfold SslRoutes.renewCertificate
      simp only [hfp, hlc]
      rw [if_neg hpass]
    rw [heq]
    obtain ⟨st, e, hst, hcerts, hnext, hkeys, hresp⟩ :=
      renewCore_shape env now cert hWF hmem hpid
    obtain ⟨hcm, _⟩ := latestCert_mem hlc
    have hlt : cert.id < db.nextCertId := hWF.2.2.2.1 cert hcm
    constructor
    · show findId _ cert.id = _
      rw [hcerts, findId_cons, if_neg (fun h2 => Nat.ne_of_lt hlt h2.symm)]
      rw [findId_map (updStatusRow_id _ _), findId_of_mem hWF.2.2.1 hcm]
      show some (updStatusRow cert.id .expired cert) = _
      unfold updStatusRow
      rw [if_pos rfl]
    · show findId _ db.nextCertId ≠ none
      rw [hcerts, findId_cons, if_pos rfl]
      simp
  · intro c hc
    have hspec := schedulerCandidates_spec db now hWF
    unfold RenewalScheduler.checkAndRenewCertificates
    exact schedLoop_expires envs now _ 0 db hWF
      (fun x hx => (hspec x hx).2.2)
      (fun x hx => ⟨x, findId_of_mem hWF.2.2.1 (hspec x hx).1⟩)
      c hc

/-- Witness for C1 (amended) on a concrete renew run: the superseded
most-recent (here `failed`) row is `expired` and the fresh row exists. -/
theorem active_certificate_uniqueness_amended_witness :
    (SslRoutes.renewCertificate envRenewFails 0 dbOneFailed 1 1).1.findCert 1 =
        some ⟨1, 1, "app.example.com", .expired, some (10 * msPerDay)⟩ ∧
      (SslRoutes.renewCertificate envRenewFails 0 dbOneFailed 1 1).1.findCert 2 ≠ none :=
  (active_certificate_uniqueness_amended envRenewFails (fun _ => envRenewFails) 0
      dbOneFailed 1 1 [] (by unfold Db.WF; decide)).2.1
    ⟨1, "app.example.com", 1, false⟩
    ⟨1, 1, "app.example.com", .failed, some (10 * msPerDay)⟩
    (by decide) (by decide) (by decide)

/-- Counterexample to C1 as stated, in two parts. First,
`requestCertificate` on a proxy whose only certificate is `valid` with
10 days left (inside the 30-day window) inserts a new row without
transitioning the old `valid` row out, leaving TWO rows with status in
{`pending`,`valid`} for the proxy — here both end up `valid`. Second,
`renewCertificate` transitions only the proxy's MOST RECENT row, so
from the reachable state left by a failed request (older `valid` row,
newer `failed` row — one active row) a successful renew expires only
the `failed` row and its fresh row ends `valid`, again leaving TWO
active rows: neither route restores at-most-one-active. -/
theorem request_duplicate_active_rows_cex :
    ((applyOp dbValidSoon (Op.request envOk 0 1 1 [])).certs.filter
      (fun c => decide (c.proxyId = 1 ∧ (c.status = .pending ∨ c.status = .valid)))).length
        = 2 ∧
    (dbValidSoon.certs.filter
      (fun c => decide (c.proxyId = 1 ∧ (c.status = .pending ∨ c.status = .valid)))).length
        = 1 ∧
    ((applyOp dbValidSoon (Op.request envIssuanceFails 0 1 1 [])).certs.filter
      (fun c => decide (c.proxyId = 1 ∧ (c.status = .pending ∨ c.status = .valid)))).length
        = 1 ∧
    ((applyOps dbValidSoon
        [Op.request envIssuanceFails 0 1 1 [], Op.renew envOk 0 1 1]).certs.filter
      (fun c => decide (c.proxyId = 1 ∧ (c.status = .pending ∨ c.status = .valid)))).length
        = 2 := by
  refine ⟨rfl, rfl, rfl, rfl⟩


/-! ### The 30-day renewal gate (C3) -/

/-- C3: with a most-recent `valid` certificate, renewal is refused with
a validation error — and the database is completely unchanged — when
more than 30 days remain; within the 30-day window the superseded row
is transitioned to `expired` and a fresh row for the same proxy and
domain is inserted (created `pending`, finishing `valid` or `failed`),
with a success response carrying the fresh id. -/
theorem renew_gate_30_days (env : CaEnv) (now : Int) (db : Db) (uid pid : Nat)
    (proxy : ProxyRow) (cert : CertRow) (e : Int)
    (hWF : db.WF)
    (hfp : db.findProxy uid pid = some proxy)
    (hlc : db.latestCert pid = some cert)
    (hst : cert.status = .valid)
    (he : cert.expiresAt = some e) :
    (30 < daysUntilExpiry now e →
      SslRoutes.renewCertificate env now db uid pid = (db, .error .validation)) ∧
    (daysUntilExpiry now e ≤ 30 →
      (SslRoutes.renewCertificate env now db uid pid).2 =
        .ok ⟨db.nextCertId, "pending", proxy.domain⟩ ∧
      ((SslRoutes.renewCertificate env now db uid pid).1).findCert cert.id =
        some { cert with status := CertStatus.expired } ∧
      ∃ c', ((SslRoutes.renewCertificate env now db uid pid).1).findCert db.nextCertId =
          some c' ∧ c'.proxyId = pid ∧ c'.domain = proxy.domain ∧
          (c'.status = CertStatus.valid ∨ c'.status = CertStatus.failed)) := by
  obtain ⟨hmem, hpid, _⟩ := findProxy_spec hfp
  constructor
  · intro h30
    have hgt : daysGT30 now cert.expiresAt = true := by
      rw [he]
      unfold daysGT30
      simpa using h30
    unfold SslRoutes.renewCertificate
    simp only [hfp, hlc]
    rw [if_pos ⟨hgt, hst⟩]
  · intro h30
    have hpass : ¬(daysGT30 now cert.expiresAt = true ∧ cert.status = .valid) := by
      intro hand
      have := hand.1
      rw [he] at this
      simp [daysGT30] at this
      omega
    have heq : SslRoutes.renewCertificate env now db uid pid =
        SslRoutes.renewCore env now db pid proxy cert := by
      unfold SslRoutes.renewCertificate
      simp only [hfp, hlc]
      rw [if_neg hpass]
    rw [heq]
    obtain ⟨st, e2, hst2, hcerts, hnext, hkeys, hresp⟩ :=
      renewCore_shape env now cert hWF hmem hpid
    obtain ⟨hcm, _⟩ := latestCert_mem hlc
    have hlt : cert.id < db.nextCertId := hWF.2.2.2.1 cert hcm
    refine ⟨hresp, ?_, ⟨db.nextCertId, pid, proxy.domain, st, e2⟩, ?_, rfl, rfl, hst2⟩
    · show findId _ cert.id = _
      rw [hcerts, findId_cons, if_neg (fun h2 => Nat.ne_of_lt hlt h2.symm)]
      rw [findId_map (updStatusRow_id _ _), findId_of_mem hWF.2.2.1 hcm]
      show some (updStatusRow cert.id .expired cert) = _
      unfold updStatusRow
      rw [if_pos rfl]
    · show findId _ db.nextCertId = _
      rw [hcerts, findId_cons, if_pos rfl]

/-- Witness for C3 on a concrete run within the 30-day window. -/
theorem renew_gate_30_days_witness :
    (SslRoutes.renewCertificate envOk 0 dbValidSoon 1 1).2 =
        .ok ⟨2, "pending", "app.example.com"⟩ ∧
      (SslRoutes.renewCertificate envOk 0 dbValidSoon 1 1).1.findCert 1 =
        some ⟨1, 1, "app.example.com", .expired, some (10 * msPerDay)⟩ := by
  have h := (renew_gate_30_days envOk 0 dbValidSoon 1 1 ⟨1, "app.example.com", 1, true⟩
    ⟨1, 1, "app.example.com", .valid, some (10 * msPerDay)⟩ (10 * msPerDay)
    (by unfold Db.WF; decide) (by decide) (by decide) rfl rfl).2 (by decide)
  exact ⟨h.1, h.2.1⟩

/-! ### Responses report "pending" while the row is already final (C10) -/

theorem requestCore_resp (env : CaEnv) (now : Int) {db : Db} {pid : Nat}
    (extra : List String) {proxy : ProxyRow} (r : SslResponse)
    (hWF : db.WF) (hmem : proxy ∈ db.proxies) (hpid : proxy.id = pid)
    (hr : (SslRoutes.requestCore env now db pid extra proxy).2 = .ok r) :
    r.status = "pending" ∧ r.certificateId = db.nextCertId ∧
    ∃ c', (SslRoutes.requestCore env now db pid extra proxy).1.findCert
        r.certificateId = some c' ∧
      (c'.status = CertStatus.valid ∨ c'.status = CertStatus.failed) := by
  obtain ⟨st, e, hst, hcerts, hnext, hkeys, hresp, _⟩ :=
    requestCore_shape env now extra hWF hmem hpid
  rw [hresp] at hr
  injection hr with hr2
  subst hr2
  refine ⟨rfl, rfl, ⟨db.nextCertId, pid, proxy.domain, st, e⟩, ?_, hst⟩
  show findId _ db.nextCertId = _
  rw [hcerts, findId_cons, if_pos rfl]

theorem renewCore_resp (env : CaEnv) (now : Int) {db : Db} {pid : Nat}
    {proxy : ProxyRow} (cert : CertRow) (r : SslResponse)
    (hWF : db.WF) (hmem : proxy ∈ db.proxies) (hpid : proxy.id = pid)
    (hr : (SslRoutes.renewCore env now db pid proxy cert).2 = .ok r) :
    r.status = "pending" ∧ r.certificateId = db.nextCertId ∧
    ∃ c', (SslRoutes.renewCore env now db pid proxy cert).1.findCert
        r.certificateId = some c' ∧
      (c'.status = CertStatus.valid ∨ c'.status = CertStatus.failed) := by
  obtain ⟨st, e, hst, hcerts, hnext, hkeys, hresp⟩ :=
    renewCore_shape env now cert hWF hmem hpid
  rw [hresp] at hr
  injection hr with hr2
  subst hr2
  refine ⟨rfl, rfl, ⟨db.nextCertId, pid, proxy.domain, st, e⟩, ?_, hst⟩
  show findId _ db.nextCertId = _
  rw [hcerts, findId_cons, if_pos rfl]

/-- C10: whenever `POST /api/ssl/request` or `POST /api/ssl/renew`
responds successfully, the response body reports status "pending" with
the fresh certificate id, even though by response time the fresh row
has already reached its final `valid` or `failed` status; the real
outcome is observable only by querying the status afterwards. -/
theorem response_pending_despite_final_status (env : CaEnv) (now : Int) (db : Db)
    (uid pid : Nat) (extra : List String) (r : SslResponse) (hWF : db.WF) :
    ((SslRoutes.requestCertificate env now db uid pid extra).2 = .ok r →
      r.status = "pending" ∧ r.certificateId = db.nextCertId ∧
      ∃ c', (SslRoutes.requestCertificate env now db uid pid extra).1.findCert
          r.certificateId = some c' ∧
        (c'.status = CertStatus.valid ∨ c'.status = CertStatus.failed)) ∧
    ((SslRoutes.renewCertificate env now db uid pid).2 = .ok r →
      r.status = "pending" ∧ r.certificateId = db.nextCertId ∧
      ∃ c', (SslRoutes.renewCertificate env now db uid pid).1.findCert
          r.certificateId = some c' ∧
        (c'.status = CertStatus.valid ∨ c'.status = CertStatus.failed)) := by
  constructor
  · intro hr
    unfold SslRoutes.requestCertificate at hr ⊢
    rcases hfp : db.findProxy uid pid with _ | proxy
    · simp only [hfp] at hr
      simp at hr
    · simp only [hfp] at hr ⊢
      obtain ⟨hmem, hpid, _⟩ := findProxy_spec hfp
      rcases hla : db.latestActiveCert pid with _ | cert
      · simp only [hla] at hr ⊢
        exact requestCore_resp env now extra r hWF hmem hpid hr
      · simp only [hla] at hr ⊢
        by_cases h1 : cert.status = .pending
        · rw [if_pos h1] at hr
          simp at hr
        · rw [if_neg h1] at hr ⊢
          by_cases h2 : daysGT30 now cert.expiresAt = true
          · rw [if_pos h2] at hr
            simp at hr
          · rw [if_neg h2] at hr ⊢
            exact requestCore_resp env now extra r hWF hmem hpid hr
  · intro hr
    unfold SslRoutes.renewCertificate at hr ⊢
    rcases hfp : db.findProxy uid pid with _ | proxy
    · simp only [hfp] at hr
      simp at hr
    · simp only [hfp] at hr ⊢
      obtain ⟨hmem, hpid, _⟩ := findProxy_spec hfp
      rcases hlc : db.latestCert pid with _ | cert
      · simp only [hlc] at hr
        simp at hr
      · simp only [hlc] at hr ⊢
        by_cases h1 : daysGT30 now cert.expiresAt = true ∧ cert.status = .valid
        · rw [if_pos h1] at hr
          simp at hr
        · rw [if_neg h1] at hr ⊢
          exact renewCore_resp env now cert r hWF hmem hpid hr

/-- Witness for C10 on a concrete renew run: response "pending", row
already `valid`. -/
theorem response_pending_despite_final_status_witness :
    SslResponse.status ⟨2, "pending", "app.example.com"⟩ = "pending" ∧
    (2 : Nat) = dbValidSoon.nextCertId ∧
    ∃ c', (SslRoutes.renewCertificate envOk 0 dbValidSoon 1 1).1.findCert 2 = some c' ∧
      (c'.status = CertStatus.valid ∨ c'.status = CertStatus.failed) := by
  have h := (response_pending_despite_final_status envOk 0 dbValidSoon 1 1 []
    ⟨2, "pending", "app.example.com"⟩ (by unfold Db.WF; decide)).2 rfl
  exact ⟨h.1, h.2.1.symm, h.2.2⟩

/-! ### External failures at the CA boundary (C4) -/

/-- Counterexample to C4 as stated: when the external issuance command
fails, `obtainCertificate` DOES record a `failed` row, but it also
rethrows — the exception leaves the CA-client boundary (`outcome` is an
error), so it is the route layer's own catch, not the CA client, that
shields the HTTP caller. -/
theorem obtain_rethrows_after_failure_cex :
    (CertbotService.obtainCertificate envIssuanceFails dbHistorySans
      "app.example.com" []).outcome = .error () ∧
    (CertbotService.obtainCertificate envIssuanceFails dbHistorySans
      "app.example.com" []).db.findCert 2 =
      some ⟨2, 1, "app.example.com", .failed, none⟩ := by
  constructor <;> rfl

/-- C4 (amended): an issuance-command or inspection failure inside
`obtainCertificate` is recorded as a `failed` persistence by the CA
client, which then RETHROWS the exception; the route layer catches it,
marks the certificate row `failed`, and still responds successfully
with status "pending" — so no exception propagates past the route
layer. -/
theorem ca_failure_recorded_and_rethrown (env : CaEnv) (now : Int) (db : Db)
    (uid pid : Nat) (extra : List String) (r : SslResponse) (hWF : db.WF)
    (h1 : env.certbotInstalled = true) (h2 : env.dirsOk = true)
    (h3 : env.acmeSetupOk = true)
    (hfail : env.issuanceOk = false ∨
      ∀ primary ds, (CertbotService.getCertificateInfo env primary ds).status ≠ .valid) :
    (∀ (dbx : Db) (primary : String),
      (CertbotService.obtainCertificate env dbx primary extra).outcome = .error () ∧
      (CertbotService.obtainCertificate env dbx primary extra).db =
        CertbotService.persist dbx primary
          (CertbotService.failedInfo primary
            (some (CertbotService.dedupDomains primary extra)))) ∧
    ((SslRoutes.requestCertificate env now db uid pid extra).2 = .ok r →
      r.status = "pending" ∧
      ∃ c', (SslRoutes.requestCertificate env now db uid pid extra).1.findCert
          r.certificateId = some c' ∧ c'.status = CertStatus.failed) := by
  have hout : ∀ (dbx : Db) (primary : String),
      CertbotService.obtainCertificate env dbx primary extra =
        ⟨CertbotService.persist dbx primary
          (CertbotService.failedInfo primary
            (some (CertbotService.dedupDomains primary extra))),
          true, 1, [CertbotService.dedupDomains primary extra], .error ()⟩ := by
    intro dbx primary
    rcases hfail with hf | hf
    · exact obtain_eq_issuance_fail dbx primary extra h1 h2 h3 hf
    · by_cases h4 : env.issuanceOk = false
      · exact obtain_eq_issuance_fail dbx primary extra h1 h2 h3 h4
      · exact obtain_eq_not_valid dbx primary extra h1 h2 h3 (by simpa using h4)
          (hf primary _)
  refine ⟨fun dbx primary => by rw [hout dbx primary]; exact ⟨rfl, rfl⟩, ?_⟩
  intro hr
  have hcore : ∀ (proxy : ProxyRow), proxy ∈ db.proxies → proxy.id = pid →
      (SslRoutes.requestCore env now db pid extra proxy).2 = .ok r →
      r.status = "pending" ∧
      ∃ c', (SslRoutes.requestCore env now db pid extra proxy).1.findCert
          r.certificateId = some c' ∧ c'.status = CertStatus.failed := by
    intro proxy hmem hpid hr2
    obtain ⟨st, e, hst, hcerts, hnext, hkeys, hresp, herr⟩ :=
      requestCore_shape env now extra hWF hmem hpid
    have hstf : st = CertStatus.failed := by
      rcases herr with h | h
      · exact h
      · exact absurd (congrArg CertbotService.ObtainResult.outcome (hout _ proxy.domain)) h
    rw [hresp] at hr2
    injection hr2 with hr3
    subst hr3
    refine ⟨rfl, ⟨db.nextCertId, pid, proxy.domain, st, e⟩, ?_, hstf⟩
    show findId _ db.nextCertId = _
    rw [hcerts, findId_cons, if_pos rfl]
  unfold SslRoutes.requestCertificate at hr ⊢
  rcases hfp : db.findProxy uid pid with _ | proxy
  · simp only [hfp] at hr
    simp at hr
  · simp only [hfp] at hr ⊢
    obtain ⟨hmem, hpid, _⟩ := findProxy_spec hfp
    rcases hla : db.latestActiveCert pid with _ | cert
    · simp only [hla] at hr ⊢
      exact hcore proxy hmem hpid hr
    · simp only [hla] at hr ⊢
      by_cases hp1 : cert.status = .pending
      · rw [if_pos hp1] at hr
        simp at hr
      · rw [if_neg hp1] at hr ⊢
        by_cases hp2 : daysGT30 now cert.expiresAt = true
        · rw [if_pos hp2] at hr
          simp at hr
        · rw [if_neg hp2] at hr ⊢
          exact hcore proxy hmem hpid hr

/-- Witness for C4 (amended) on a concrete run with a failing issuance
command. -/
theorem ca_failure_recorded_and_rethrown_witness :
    (CertbotService.obtainCertificate envIssuanceFails dbValidSoon
        "app.example.com" []).outcome = .error () ∧
    (CertbotService.obtainCertificate envIssuanceFails dbValidSoon
        "app.example.com" []).db =
      CertbotService.persist dbValidSoon "app.example.com"
        (CertbotService.failedInfo "app.example.com"
          (some (CertbotService.dedupDomains "app.example.com" []))) :=
  (ca_failure_recorded_and_rethrown envIssuanceFails 0 dbValidSoon 1 1 []
    ⟨2, "pending", "app.example.com"⟩ (by unfold Db.WF; decide)
    rfl rfl rfl (Or.inl rfl)).1 dbValidSoon "app.example.com"


/-! ### SAN replacement in `persist` (C9) -/

theorem bool_eq_false_of_not {b : Bool} (h : (!b) = true) : b = false := by
  cases b
  · rfl
  · cases h

theorem bor_false_right {a b : Bool} (h : (a || b) = false) : b = false := by
  cases b
  · rfl
  · rw [Bool.or_true] at h
    cases h

theorem owned_any_map {l : List CertRow} (g : CertRow → CertRow)
    (hg : ∀ c, (g c).id = c.id ∧ (g c).proxyId = c.proxyId) (sid pid : Nat) :
    (l.map g).any (fun c => decide (c.id = sid ∧ c.proxyId = pid)) =
      l.any (fun c => decide (c.id = sid ∧ c.proxyId = pid)) := by
  rw [List.any_map]
  congr 1
  funext c
  simp [Function.comp, (hg c).1, (hg c).2]

theorem foldlSan_mem_mono (cid : Nat) :
    ∀ (ds : List String) (db : Db) (s : SanRow), s ∈ db.sans →
      s ∈ (ds.foldl (fun a d => a.insertSanIgnore cid d) db).sans
  | [], _, _, h => h
  | d :: t, db, s, h => by
    rw [List.foldl_cons]
    refine foldlSan_mem_mono cid t _ s ?_
    unfold Db.insertSanIgnore
    split
    · exact h
    · exact List.mem_append_left _ h

theorem foldlSan_mem_char (cid : Nat) :
    ∀ (ds : List String) (db : Db) (s : SanRow),
      s ∈ (ds.foldl (fun a d => a.insertSanIgnore cid d) db).sans →
      s ∈ db.sans ∨ (s.certificateId = cid ∧ s.domain ∈ ds)
  | [], _, _, h => Or.inl h
  | d :: t, db, s, h => by
    rw [List.foldl_cons] at h
    rcases foldlSan_mem_char cid t _ s h with h2 | ⟨h3, h4⟩
    · unfold Db.insertSanIgnore at h2
      split at h2
      · exact Or.inl h2
      · rcases List.mem_append.mp h2 with h5 | h5
        · exact Or.inl h5
        · have h6 : s = ⟨cid, d⟩ := by simpa using h5
          rw [h6]
          exact Or.inr ⟨rfl, List.mem_cons_self _ _⟩
    · exact Or.inr ⟨h3, List.mem_cons_of_mem _ h4⟩

theorem insertSan_nodup_filter (db : Db) (cid : Nat) (d : String)
    (h : ((db.sans.filter (fun s => decide (s.certificateId = cid))).map
      (fun s => s.domain)).Nodup) :
    (((db.insertSanIgnore cid d).sans.filter
        (fun s => decide (s.certificateId = cid))).map (fun s => s.domain)).Nodup := by
  unfold Db.insertSanIgnore
  by_cases hany : db.sans.any
      (fun s => decide (s.certificateId = cid ∧ s.domain = d)) = true
  · rw [if_pos hany]
    exact h
  · rw [if_neg hany]
    show (((db.sans ++ [(⟨cid, d⟩ : SanRow)]).filter _).map _).Nodup
    rw [List.filter_append,
      show List.filter (fun s : SanRow => decide (s.certificateId = cid)) [⟨cid, d⟩] =
        [⟨cid, d⟩] from by simp,
      List.map_append, List.nodup_append]
    refine ⟨h, by simp, ?_⟩
    intro a ha hb
    have had : a = d := by simpa using hb
    subst had
    rcases List.mem_map.mp ha with ⟨srow, hs, hdom⟩
    have hs2 := List.mem_filter.mp hs
    have hcid : srow.certificateId = cid := by simpa using hs2.2
    exact hany (List.any_eq_true.mpr ⟨srow, hs2.1, by simp [hcid, hdom]⟩)

theorem foldlSan_nodup_filter (cid : Nat) :
    ∀ (ds : List String) (db : Db),
      ((db.sans.filter (fun s => decide (s.certificateId = cid))).map
        (fun s => s.domain)).Nodup →
      (((ds.foldl (fun a d => a.insertSanIgnore cid d) db).sans.filter
          (fun s => decide (s.certificateId = cid))).map (fun s => s.domain)).Nodup
  | [], _, h => h
  | d :: t, db, h => by
    rw [List.foldl_cons]
    exact foldlSan_nodup_filter cid t _ (insertSan_nodup_filter db cid d h)

/-- C9 (amended): when `persist` writes an outcome carrying a non-empty
SAN set, it deletes the SAN rows of ALL certificates belonging to the
owning proxy — including historical rows of the same proxy — and
inserts the new set for the written certificate only, with no duplicate
domain per certificate (the `INSERT IGNORE` against the unique
(certificate_id, domain) key); SAN rows whose certificate belongs to a
different proxy are left unchanged. -/
theorem persist_san_replacement_amended (db : Db) (primary : String)
    (info : CertificateInfo) (proxy : ProxyRow) (ds : List String)
    (hfp : db.proxies.find? (fun p => decide (p.domain = primary)) = some proxy)
    (hds : info.domains = some ds) (hne : ds ≠ [])
    (hfk : ∀ s ∈ db.sans, ∃ c ∈ db.certs, c.id = s.certificateId)
    (hbound : ∀ c ∈ db.certs, c.id < db.nextCertId) :
    (∀ s ∈ db.sans,
      db.certs.any (fun c => decide (c.id = s.certificateId ∧ c.proxyId = proxy.id))
        = false →
      s ∈ (CertbotService.persist db primary info).sans) ∧
    (∀ s ∈ (CertbotService.persist db primary info).sans,
      (s ∈ db.sans ∧
        db.certs.any (fun c => decide (c.id = s.certificateId ∧ c.proxyId = proxy.id))
          = false) ∨
      (s.certificateId = persistTargetId db proxy ∧ s.domain ∈ ds)) ∧
    (((CertbotService.persist db primary info).sans.filter
        (fun s => decide (s.certificateId = persistTargetId db proxy))).map
      (fun s => s.domain)).Nodup := by
  have hlen : ds.length ≠ 0 := fun h0 => hne (List.length_eq_zero.mp h0)
  have hskid : ∀ s ∈ db.sans, s.certificateId < db.nextCertId := by
    intro s hs
    obtain ⟨c, hc, hcid⟩ := hfk s hs
    rw [← hcid]
    exact hbound c hc
  rcases hfc : db.certs.find? (fun c => decide (c.proxyId = proxy.id)) with _ | existing
  · have htid : persistTargetId db proxy = db.nextCertId := by
      unfold persistTargetId
      rw [hfc]
    rw [persist_eq_insert info hfp hfc]
    unfold CertbotService.persistSans
    simp only [hds]
    rw [if_pos hlen]
    have hbase : (((db.insertCert proxy.id primary info.status
        info.expires_at).1).deleteSansForProxy proxy.id).sans =
        db.sans.filter (fun s =>
          !((⟨db.nextCertId, proxy.id, primary, info.status, info.expires_at⟩ : CertRow)
              :: db.certs).any
            (fun c => decide (c.id = s.certificateId ∧ c.proxyId = proxy.id))) := rfl
    have hbmem : ∀ s ∈ db.sans,
        db.certs.any (fun c => decide (c.id = s.certificateId ∧ c.proxyId = proxy.id))
          = false →
        s ∈ (((db.insertCert proxy.id primary info.status
          info.expires_at).1).deleteSansForProxy proxy.id).sans := by
      intro s hs hno
      rw [hbase]
      refine List.mem_filter.mpr ⟨hs, ?_⟩
      have hsk := hskid s hs
      have h1 : ((⟨db.nextCertId, proxy.id, primary, info.status,
          info.expires_at⟩ : CertRow) :: db.certs).any
          (fun c => decide (c.id = s.certificateId ∧ c.proxyId = proxy.id)) = false := by
        rw [List.any_cons, hno]
        simp
        omega
      simp only [h1]
      rfl
    refine ⟨?_, ?_, ?_⟩
    · intro s hs hno
      exact foldlSan_mem_mono _ ds _ s (hbmem s hs hno)
    · intro s hs
      rcases foldlSan_mem_char _ ds _ s hs with h2 | ⟨h3, h4⟩
      · rw [hbase] at h2
        obtain ⟨hsm, hpred⟩ := List.mem_filter.mp h2
        left
        refine ⟨hsm, ?_⟩
        have hpred2 := bool_eq_false_of_not hpred
        rw [List.any_cons] at hpred2
        exact bor_false_right hpred2
      · right
        rw [htid]
        exact ⟨h3, h4⟩
    · rw [htid]
      refine foldlSan_nodup_filter _ ds _ ?_
      rw [hbase]
      have hempty : (db.sans.filter (fun s =>
          !((⟨db.nextCertId, proxy.id, primary, info.status, info.expires_at⟩ : CertRow)
              :: db.certs).any
            (fun c => decide (c.id = s.certificateId ∧ c.proxyId = proxy.id)))).filter
          (fun s => decide (s.certificateId = db.nextCertId)) = [] := by
        rw [List.filter_filter]
        rw [List.filter_eq_nil_iff]
        intro s hs
        have hsk := hskid s hs
        simp
        omega
      rw [hempty]
      simp
  · have htid : persistTargetId db proxy = existing.id := by
      unfold persistTargetId
      rw [hfc]
    have hexm : existing ∈ db.certs := List.mem_of_find?_eq_some hfc
    have hexp : existing.proxyId = proxy.id := by simpa using List.find?_some hfc
    rw [persist_eq_update info hfp hfc]
    unfold CertbotService.persistSans
    simp only [hds]
    rw [if_pos hlen]
    have hpredeq : ∀ s : SanRow,
        ((db.updateCert existing.id info.status info.expires_at).certs.any
          (fun c => decide (c.id = s.certificateId ∧ c.proxyId = proxy.id))) =
        (db.certs.any
          (fun c => decide (c.id = s.certificateId ∧ c.proxyId = proxy.id))) := by
      intro s
      exact owned_any_map (updRow existing.id info.status info.expires_at)
        (fun c => ⟨updRow_id _ _ _ c, updRow_proxyId _ _ _ c⟩) s.certificateId proxy.id
    have hbase : ((db.updateCert existing.id info.status
        info.expires_at).deleteSansForProxy proxy.id).sans =
        db.sans.filter (fun s =>
          !(db.certs.any
            (fun c => decide (c.id = s.certificateId ∧ c.proxyId = proxy.id)))) := by
      show db.sans.filter _ = db.sans.filter _
      apply List.filter_congr
      intro s _
      rw [hpredeq s]
    have hbmem : ∀ s ∈ db.sans,
        db.certs.any (fun c => decide (c.id = s.certificateId ∧ c.proxyId = proxy.id))
          = false →
        s ∈ ((db.updateCert existing.id info.status
          info.expires_at).deleteSansForProxy proxy.id).sans := by
      intro s hs hno
      rw [hbase]
      refine List.mem_filter.mpr ⟨hs, ?_⟩
      simp only [hno]
      rfl
    refine ⟨?_, ?_, ?_⟩
    · intro s hs hno
      exact foldlSan_mem_mono _ ds _ s (hbmem s hs hno)
    · intro s hs
      rcases foldlSan_mem_char _ ds _ s hs with h2 | ⟨h3, h4⟩
      · rw [hbase] at h2
        obtain ⟨hsm, hpred⟩ := List.mem_filter.mp h2
        left
        exact ⟨hsm, bool_eq_false_of_not hpred⟩
      · right
        rw [htid]
        exact ⟨h3, h4⟩
    · rw [htid]
      refine foldlSan_nodup_filter _ ds _ ?_
      rw [hbase]
      have hempty : (db.sans.filter (fun s =>
          !(db.certs.any
            (fun c => decide (c.id = s.certificateId ∧ c.proxyId = proxy.id))))).filter
          (fun s => decide (s.certificateId = existing.id)) = [] := by
        rw [List.filter_filter]
        rw [List.filter_eq_nil_iff]
        intro s hs
        simp
        intro h5
        exact ⟨existing, hexm, h5.symm, hexp⟩
      rw [hempty]
      simp

/-- Witness for C9 (amended): on a concrete state the written
certificate's SAN set is duplicate-free. -/
theorem persist_san_replacement_amended_witness :
    (((CertbotService.persist dbHistorySans "app.example.com"
        validInfoExample).sans.filter
      (fun s => decide (s.certificateId =
        persistTargetId dbHistorySans ⟨1, "app.example.com", 1, true⟩))).map
      (fun s => s.domain)).Nodup :=
  (persist_san_replacement_amended dbHistorySans "app.example.com" validInfoExample
    ⟨1, "app.example.com", 1, true⟩ ["app.example.com"]
    (by decide) rfl (by decide) (by decide) (by decide)).2.2

/-- Counterexample to C9 as stated: persisting a `valid` outcome with a
SAN set deletes the SAN row of a historical certificate (id 1) of the
SAME proxy, which the claim says must be left unchanged. -/
theorem persist_deletes_other_cert_sans_cex :
    (⟨1, "old.example.com"⟩ : SanRow) ∈ dbHistorySans.sans ∧
    (CertbotService.persist dbHistorySans "app.example.com" validInfoExample).sans =
      [⟨2, "app.example.com"⟩] ∧
    (⟨1, "old.example.com"⟩ : SanRow) ∉
      (CertbotService.persist dbHistorySans "app.example.com" validInfoExample).sans := by
  refine ⟨by decide, rfl, by decide⟩

end NgxManager
